import Mathlib

/-!
Verification of the standings aggregation and schedule-conflict logic of the
Parkland Pickleball League app.

The definitions below are a shallow embedding of the TypeScript source:

* `src/app/(tabs)/standings.tsx` (the later, authoritative revision that starts
  after the document separator: types at lines 717-758, helpers at lines
  853-923, `addTotals` at lines 1076-1106, the `computed` pipeline at lines
  1236-1414);
* `src/app/(tabs)/admin-schedule.tsx` (conflict checking and the save guards,
  lines 494-545 and 636-805).

JavaScript numbers that hold integral data (weeks, courts, scores, totals) are
modelled as `Int`; strings as `String`.  `String.prototype.trim` is modelled on
the four common ASCII whitespace characters, and `localeCompare` is modelled as
code-point lexicographic comparison (the embedding's total order standing in
for the locale order).
-/

/-- Whitespace test used by the embedding of `String.prototype.trim` and of
`parseInt`'s leading-whitespace skipping. -/
def isJsSpace (c : Char) : Bool :=
  c == ' ' || c == '\t' || c == '\n' || c == '\r'

/-- Remove leading and trailing whitespace from a list of characters:
the embedding of `String.prototype.trim` on `String.data`. -/
def trimList (l : List Char) : List Char :=
  ((l.dropWhile isJsSpace).reverse.dropWhile isJsSpace).reverse

/-- Embedding of `normalizeName` (standings.tsx line 853): `(s || '').trim()`. -/
def normalizeName (s : String) : String :=
  String.mk (trimList s.data)

/-- Numeric value of a decimal digit character. -/
def digitToNat (c : Char) : Nat := c.toNat - '0'.toNat

/-- Value of a list of decimal digit characters, most significant first. -/
def digitsToNat (ds : List Char) : Nat :=
  ds.foldl (fun a c => a * 10 + digitToNat c) 0

/-- Embedding of JavaScript `parseInt(s, 10)`: skip leading whitespace, read an
optional sign and then the longest run of decimal digits, ignoring anything
after it; `none` models `NaN` (no digits at all). -/
def jsParseInt (s : String) : Option Int :=
  let cs := s.data.dropWhile isJsSpace
  let signAndRest : Bool × List Char :=
    match cs with
    | '-' :: r => (true, r)
    | '+' :: r => (false, r)
    | _ => (false, cs)
  let ds := signAndRest.2.takeWhile Char.isDigit
  if ds = [] then none
  else some (if signAndRest.1 then -(digitsToNat ds : Int) else (digitsToNat ds : Int))

/-- Embedding of `safeInt` (admin-schedule.tsx lines 145-148):
`parseInt(value, 10)` with a fallback for `NaN`. -/
def safeInt (value : String) (fallback : Int) : Int :=
  (jsParseInt value).getD fallback

/-- Embedding of `toN` (standings.tsx lines 870-873):
`parseInt((s ?? '').toString() || '0', 10)` with `NaN` mapped to `0`.  The
empty string is falsy in JavaScript, so it is replaced by `'0'` before
parsing. -/
def toN (s : String) : Int :=
  (jsParseInt (if s = "" then "0" else s)).getD 0

/-- Code-point lexicographic comparison of character lists; the embedding's
model of `String.prototype.localeCompare`'s order. -/
def lexCmp : List Char → List Char → Ordering
  | [], [] => .eq
  | [], _ :: _ => .lt
  | _ :: _, [] => .gt
  | a :: as, b :: bs =>
    if a.toNat < b.toNat then .lt
    else if b.toNat < a.toNat then .gt
    else lexCmp as bs

/-- Comparison of strings under the `localeCompare` model. -/
def strCmp (x y : String) : Ordering := lexCmp x.data y.data

/-- The sign (`-1`, `0`, `1`) of the modelled `x.localeCompare(y)`. -/
def localeCompareInt (x y : String) : Int :=
  match strCmp x y with
  | .lt => -1
  | .eq => 0
  | .gt => 1

/-- Case folding on the character list, the embedding's stand-in for
`toLowerCase` when stating case-insensitive comparison (used only to state
what case normalization would mean; the standings code never case-folds). -/
def caseFold (s : String) : String :=
  String.mk (s.data.map Char.toLower)

/-- Non-strict string order under the `localeCompare` model. -/
def strLe (x y : String) : Prop := strCmp x y ≠ .gt

instance : DecidablePred (fun p : String × String => strLe p.1 p.2) :=
  fun _ => inferInstanceAs (Decidable (_ ≠ _))

instance strLe.decidable : ∀ x y, Decidable (strLe x y) :=
  fun _ _ => inferInstanceAs (Decidable (_ ≠ _))

/-- The three divisions (standings.tsx line 717). -/
inductive Division where
  | Beginner
  | Intermediate
  | Advanced
deriving DecidableEq, Repr

/-- Rendering of a division for user-facing messages (template interpolation
of a `Division` value in the source). -/
def divisionLabel : Division → String
  | .Beginner => "Beginner"
  | .Intermediate => "Intermediate"
  | .Advanced => "Advanced"

/-- Embedding of `DIVISION_ORDER` (standings.tsx line 767). -/
def DIVISION_ORDER : List Division := [.Advanced, .Intermediate, .Beginner]

/-- Embedding of the hardcoded baseline roster `DEFAULT_TEAMS_BY_DIVISION`
(standings.tsx lines 770-812). -/
def DEFAULT_TEAMS_BY_DIVISION : Division → List String
  | .Advanced =>
    ["Ishai/Greg", "Adam/Jon", "Bradley/Ben", "Peter/Ray", "Andrew/Brent",
     "Mark D/Craig", "Alex/Anibal", "Radek/Alexi", "Ricky/John",
     "Brandon/Ikewa", "Andrew/Dan", "Eric/Meir", "David/Guy", "Mark P/Matt O"]
  | .Intermediate =>
    ["Ashley/Julie", "Stephanie/Misty", "Eric/Sunil", "Dan/Relu",
     "Domencio/Keith", "YG/Haaris", "Nicole/Joshua", "Amy/Nik",
     "Elaine/Valerie", "Marat/Marta", "Beatriz/Joe", "Alejandro/William"]
  | .Beginner =>
    ["Eric/Tracy", "Rachel/Jaime", "Amy/Ellen", "Lashonda/Lynette",
     "Michael/JP", "Fran/Scott", "Robert/Adam", "Cynthia/Maureen",
     "Marina/Sharon"]

/-- Embedding of `SavedMatch` (standings.tsx lines 719-727).  The legacy
`createdAt` timestamp carried by the admin screen's variant of this record is
not read by any of the embedded logic and is omitted. -/
structure SavedMatch where
  id : String
  week : Int
  division : Division
  time : String
  court : Int
  teamA : String
  teamB : String
deriving DecidableEq, Repr

/-- Embedding of `ScoreFields` (standings.tsx line 729): the three per-game
score strings of one team. -/
structure ScoreFields where
  g1 : String
  g2 : String
  g3 : String
deriving DecidableEq, Repr

/-- Embedding of `PersistedMatchScore` (standings.tsx lines 731-738). -/
structure PersistedMatchScore where
  matchId : String
  teamA : ScoreFields
  teamB : ScoreFields
  verified : Bool
  verifiedBy : Option String
  verifiedAt : Option Int
deriving DecidableEq, Repr

/-- The five numeric totals columns shared by `TeamRow` and `TeamTotals`
(standings.tsx lines 740-748 and 1066-1074), grouped into one record. -/
structure Stats where
  gamesPlayed : Int
  wins : Int
  losses : Int
  pointsFor : Int
  pointsAgainst : Int
deriving DecidableEq, Repr

/-- All-zero totals. -/
def Stats.zero : Stats := ⟨0, 0, 0, 0, 0⟩

/-- Componentwise sum, as performed by `addTotals` (standings.tsx lines
1100-1104). -/
def Stats.add (a b : Stats) : Stats :=
  ⟨a.gamesPlayed + b.gamesPlayed, a.wins + b.wins, a.losses + b.losses,
   a.pointsFor + b.pointsFor, a.pointsAgainst + b.pointsAgainst⟩

/-- Embedding of `TeamRow` (standings.tsx lines 740-748): a display row, also
the shape of a Week 1 baseline row. -/
structure TeamRow where
  division : Division
  team : String
  stats : Stats
deriving DecidableEq, Repr

/-- Embedding of `TeamTotals` (standings.tsx lines 1066-1074): totals keyed by
team only, remembering the team's pre-move division. -/
structure TeamTotals where
  team : String
  originalDivision : Division
  stats : Stats
deriving DecidableEq, Repr

/-- Embedding of `DivisionMove` (standings.tsx lines 751-758); the unused
`createdAt` timestamp is omitted. -/
structure DivisionMove where
  id : String
  team : String
  fromDivision : Division
  toDivision : Division
  effectiveWeek : Int
deriving DecidableEq, Repr

/-- The backend roster (`teams` table) grouped by division, as produced by
`fetchTeamsFromSupabase` (standings.tsx lines 925-947); only the row names are
consumed by the standings computation. -/
structure DbTeams where
  advanced : List String
  intermediate : List String
  beginner : List String
deriving DecidableEq, Repr

/-- Embedding of `isEnteredScore` (standings.tsx lines 881-883 and its
identical copy in the scoring screen, src/unnamed/part_005 lines 332-334):
a score string is entered iff it is non-empty after trimming. -/
def isEnteredScore (v : String) : Bool :=
  !(normalizeName v == "")

/-- Embedding of `gameEnteredPair` (standings.tsx lines 884-886 and
src/unnamed/part_005 lines 340-342): a game slot counts only when both sides
have an entered score. -/
def gameEnteredPair (a b : String) : Bool :=
  isEnteredScore a && isEnteredScore b

/-- Per-slot tally of the loop at standings.tsx lines 1321-1341: whether the
slot counts as a played game, which side wins it, and both sides' points for
the slot (points are collected only for fully entered slots). -/
structure SlotTally where
  gamesPlayed : Int
  aWins : Int
  bWins : Int
  aPoints : Int
  bPoints : Int
deriving DecidableEq, Repr

/-- Componentwise sum of slot tallies (the loop's accumulation). -/
def SlotTally.add (x y : SlotTally) : SlotTally :=
  ⟨x.gamesPlayed + y.gamesPlayed, x.aWins + y.aWins, x.bWins + y.bWins,
   x.aPoints + y.aPoints, x.bPoints + y.bPoints⟩

/-- One iteration of the scoring loop (standings.tsx lines 1321-1341) for a
single game slot with team A's and team B's raw score strings. -/
def slotTally (a b : String) : SlotTally :=
  if gameEnteredPair a b then
    let ap := toN a
    let bp := toN b
    if bp < ap then ⟨1, 1, 0, ap, bp⟩
    else if ap < bp then ⟨1, 0, 1, ap, bp⟩
    else ⟨1, 0, 0, ap, bp⟩
  else ⟨0, 0, 0, 0, 0⟩

/-- Total tally of a verified match's three game slots. -/
def matchTally (s : PersistedMatchScore) : SlotTally :=
  ((slotTally s.teamA.g1 s.teamB.g1).add (slotTally s.teamA.g2 s.teamB.g2)).add
    (slotTally s.teamA.g3 s.teamB.g3)

/-- The totals added for team A of a match (the first `addTotals` call,
standings.tsx lines 1343-1351). -/
def matchContribA (s : PersistedMatchScore) : Stats :=
  let t := matchTally s
  ⟨t.gamesPlayed, t.aWins, t.bWins, t.aPoints, t.bPoints⟩

/-- The totals added for team B of a match (the second `addTotals` call,
standings.tsx lines 1353-1361). -/
def matchContribB (s : PersistedMatchScore) : Stats :=
  let t := matchTally s
  ⟨t.gamesPlayed, t.bWins, t.aWins, t.bPoints, t.aPoints⟩

/-- First-match association lookup, the embedding of indexing the
`Record<string, PersistedMatchScore>` produced by
`fetchMatchScoresFromSupabase` (keys are unique match ids). -/
def lookupScore : List (String × PersistedMatchScore) → String → Option PersistedMatchScore
  | [], _ => none
  | e :: rest, k => if e.1 = k then some e.2 else lookupScore rest k

/-- Embedding of `getMaxVerifiedWeek` (standings.tsx lines 888-898): the
largest `week` over matches with a verified score, starting from 1. -/
def getMaxVerifiedWeek (matchList : List SavedMatch)
    (scores : List (String × PersistedMatchScore)) : Int :=
  matchList.foldl
    (fun mx m =>
      match lookupScore scores m.id with
      | none => mx
      | some s => if s.verified then (if mx < m.week then m.week else mx) else mx)
    1

/-- One iteration of the loop in `getDivisionForTeamAsOfWeek` (standings.tsx
lines 904-911): skip non-matching or not-yet-effective moves, otherwise keep
the move with the strictly larger effective week. -/
def bestMoveStep (team : String) (asOfWeek : Int) (best : Option DivisionMove)
    (mv : DivisionMove) : Option DivisionMove :=
  if normalizeName mv.team ≠ normalizeName team then best
  else if asOfWeek < mv.effectiveWeek then best
  else
    match best with
    | none => some mv
    | some b => if b.effectiveWeek < mv.effectiveWeek then some mv else some b

/-- The running `best` accumulator of the loop in `getDivisionForTeamAsOfWeek`
(standings.tsx lines 901-914). -/
def bestMoveFor (team : String) (asOfWeek : Int) (moves : List DivisionMove) :
    Option DivisionMove :=
  moves.foldl (bestMoveStep team asOfWeek) none

/-- Embedding of `getDivisionForTeamAsOfWeek` (standings.tsx lines 901-914):
the `toDivision` of the best applicable saved division move, if any. -/
def getDivisionForTeamAsOfWeek (team : String) (asOfWeek : Int)
    (moves : List DivisionMove) : Option Division :=
  (bestMoveFor team asOfWeek moves).map (fun mv => mv.toDivision)

/-- Embedding of `getBaselineDivision` (standings.tsx lines 916-923). -/
def getBaselineDivision (team : String) : Option Division :=
  let t := normalizeName team
  if (DEFAULT_TEAMS_BY_DIVISION .Advanced).any (fun x => normalizeName x == t) then
    some .Advanced
  else if (DEFAULT_TEAMS_BY_DIVISION .Intermediate).any (fun x => normalizeName x == t) then
    some .Intermediate
  else if (DEFAULT_TEAMS_BY_DIVISION .Beginner).any (fun x => normalizeName x == t) then
    some .Beginner
  else none

/-- The `(division, raw name)` pairs inserted into `supabaseDivisionByTeam`
(standings.tsx lines 1224-1234) in insertion order: the backend roster walked
in `DIVISION_ORDER`. -/
def dbTeamPairs (db : DbTeams) : List (Division × String) :=
  db.advanced.map (fun n => (Division.Advanced, n))
    ++ db.intermediate.map (fun n => (Division.Intermediate, n))
    ++ db.beginner.map (fun n => (Division.Beginner, n))

/-- Embedding of the `supabaseDivisionByTeam` map lookup: later insertions
overwrite earlier ones, so the last pair whose normalized non-empty name
equals the (already normalized) key wins. -/
def supabaseDivisionByTeam (db : DbTeams) (t : String) : Option Division :=
  (dbTeamPairs db).foldl
    (fun acc p =>
      if normalizeName p.2 = "" then acc
      else if normalizeName p.2 = t then some p.1 else acc)
    none

/-- Embedding of `uniqSorted` (standings.tsx lines 857-860): normalize,
drop empties, deduplicate, sort by the `localeCompare` model. -/
def uniqSorted (list : List String) : List String :=
  List.insertionSort strLe
    (((list.map normalizeName).filter (fun x => decide (x ≠ ""))).dedup)

/-- Totals map: an association list from normalized team name to `TeamTotals`,
embedding the insertion-ordered `Map<string, TeamTotals>`. -/
def TotalsMap : Type := List (String × TeamTotals)

/-- First-match lookup in a totals map (`map.get(key)`). -/
def lookupTot : List (String × TeamTotals) → String → Option TeamTotals
  | [], _ => none
  | e :: rest, k => if e.1 = k then some e.2 else lookupTot rest k

/-- In-place update of an existing key (`map.set(key, ...)` on a present
key keeps its position). -/
def updateTot (m : List (String × TeamTotals)) (k : String) (v : TeamTotals) :
    List (String × TeamTotals) :=
  m.map (fun e => if e.1 = k then (k, v) else e)

/-- Embedding of `addTotals` (standings.tsx lines 1076-1106): key the entry by
the trimmed team name, drop empty names, insert a fresh entry (defaulting the
division to Beginner) or add the five numeric fields onto the existing entry,
keeping the existing entry's `originalDivision`. -/
def addTotals (m : List (String × TeamTotals)) (team : String)
    (originalDivision : Option Division) (s : Stats) :
    List (String × TeamTotals) :=
  let key := normalizeName team
  if key = "" then m
  else
    match lookupTot m key with
    | none => m ++ [(key, ⟨key, originalDivision.getD .Beginner, s⟩)]
    | some prev => updateTot m key ⟨key, prev.originalDivision, prev.stats.add s⟩

/-- Embedding of `baselineHasStats` (standings.tsx lines 1236-1245): does any
baseline row carry a positive statistic? -/
def baselineHasStats (baseRows : List TeamRow) : Bool :=
  baseRows.any (fun r =>
    decide (0 < r.stats.gamesPlayed) || decide (0 < r.stats.wins)
      || decide (0 < r.stats.losses) || decide (0 < r.stats.pointsFor)
      || decide (0 < r.stats.pointsAgainst))

/-- Embedding of `START_WEEK_FOR_AUTOCALC` (standings.tsx line 765). -/
def START_WEEK_FOR_AUTOCALC : Int := 2

/-- The `startWeekForThisDevice` binding (standings.tsx line 1252). -/
def startWeekForDevice (baseRows : List TeamRow) : Int :=
  if baselineHasStats baseRows then START_WEEK_FOR_AUTOCALC else 1

/-- The `baselineAll` list (standings.tsx lines 1255-1259). -/
def baselineAllTeams : List String :=
  DEFAULT_TEAMS_BY_DIVISION .Advanced ++ DEFAULT_TEAMS_BY_DIVISION .Intermediate
    ++ DEFAULT_TEAMS_BY_DIVISION .Beginner

/-- The `supaAll` list (standings.tsx lines 1261-1265). -/
def supaAllNames (db : DbTeams) : List String :=
  db.advanced ++ db.intermediate ++ db.beginner

/-- The raw name list fed to `uniqSorted` at standings.tsx line 1271:
hardcoded baseline roster, backend roster, both teams of every match, and the
baseline rows' team names. -/
def knownRaw (matchList : List SavedMatch) (baseRows : List TeamRow) (db : DbTeams) :
    List String :=
  baselineAllTeams ++ supaAllNames db
    ++ matchList.flatMap (fun m => [m.teamA, m.teamB]) ++ baseRows.map (fun r => r.team)

/-- The `allKnownTeams` list (standings.tsx line 1271). -/
def allKnownTeams (matchList : List SavedMatch) (baseRows : List TeamRow)
    (db : DbTeams) : List String :=
  uniqSorted (knownRaw matchList baseRows db)

/-- The division hint used when seeding a known team (standings.tsx lines
1277-1279): backend roster, then hardcoded baseline, then Beginner. -/
def hintDivision (db : DbTeams) (t : String) : Division :=
  match supabaseDivisionByTeam db t with
  | some d => d
  | none => (getBaselineDivision t).getD .Beginner

/-- One iteration of the seeding loop (standings.tsx lines 1273-1290). -/
def seedStep (db : DbTeams) (tot : List (String × TeamTotals)) (team : String) :
    List (String × TeamTotals) :=
  let t := normalizeName team
  if t = "" then tot
  else addTotals tot t (some (hintDivision db t)) Stats.zero

/-- Step 0 of `computed`: every known team seeded with zero stats. -/
def seedTotals (matchList : List SavedMatch) (baseRows : List TeamRow)
    (db : DbTeams) : List (String × TeamTotals) :=
  (allKnownTeams matchList baseRows db).foldl (seedStep db) []

/-- Step 1 of `computed` (standings.tsx lines 1292-1305): baseline totals are
added only when the baseline carries real statistics. -/
def totalsAfterBaseline (matchList : List SavedMatch) (baseRows : List TeamRow)
    (db : DbTeams) : List (String × TeamTotals) :=
  if baselineHasStats baseRows then
    baseRows.foldl (fun tot r => addTotals tot r.team (some r.division) r.stats)
      (seedTotals matchList baseRows db)
  else seedTotals matchList baseRows db

/-- One iteration of the match-folding loop (standings.tsx lines 1308-1362). -/
def foldMatchStep (scores : List (String × PersistedMatchScore)) (startW : Int)
    (tot : List (String × TeamTotals)) (m : SavedMatch) :
    List (String × TeamTotals) :=
  if m.week < startW then tot
  else
    match lookupScore scores m.id with
    | none => tot
    | some s =>
      if s.verified then
        addTotals
          (addTotals tot m.teamA (some m.division) (matchContribA s))
          m.teamB (some m.division) (matchContribB s)
      else tot

/-- Step 2 of `computed`: fold every verified match at or after the start week
into the totals map. -/
def totalsAfterMatches (matchList : List SavedMatch)
    (scores : List (String × PersistedMatchScore)) (baseRows : List TeamRow)
    (db : DbTeams) : List (String × TeamTotals) :=
  matchList.foldl (foldMatchStep scores (startWeekForDevice baseRows))
    (totalsAfterBaseline matchList baseRows db)

/-- Step 3 of `computed` (standings.tsx lines 1364-1381): resolve each team's
final display division through the saved division moves as of the maximum
verified week. -/
def finalRows (matchList : List SavedMatch)
    (scores : List (String × PersistedMatchScore)) (baseRows : List TeamRow)
    (moves : List DivisionMove) (db : DbTeams) : List TeamRow :=
  (totalsAfterMatches matchList scores baseRows db).map
    (fun e =>
      { division :=
          (getDivisionForTeamAsOfWeek e.2.team (getMaxVerifiedWeek matchList scores)
            moves).getD e.2.originalDivision,
        team := e.2.team,
        stats := e.2.stats })

/-- The comparator tail (standings.tsx lines 1397-1409) applied once the
zero-game rule does not decide: wins descending, losses ascending, points-for
descending, points-against ascending, then the team name under the
`localeCompare` model. -/
def standingsCmpTail (x y : TeamRow) : Int :=
  if y.stats.wins ≠ x.stats.wins then y.stats.wins - x.stats.wins
  else if x.stats.losses ≠ y.stats.losses then x.stats.losses - y.stats.losses
  else if y.stats.pointsFor ≠ x.stats.pointsFor then y.stats.pointsFor - x.stats.pointsFor
  else if x.stats.pointsAgainst ≠ y.stats.pointsAgainst then
    x.stats.pointsAgainst - y.stats.pointsAgainst
  else localeCompareInt x.team y.team

/-- Embedding of the row comparator (standings.tsx lines 1391-1410) as a
signed comparison value: zero-game rows last, then the tail comparison. -/
def standingsCmp (x y : TeamRow) : Int :=
  let xZero : Bool := x.stats.gamesPlayed == 0
  let yZero : Bool := y.stats.gamesPlayed == 0
  if xZero ≠ yZero then (if xZero then 1 else -1)
  else standingsCmpTail x y

/-- The non-strict order induced by the comparator: `x` may be placed before
`y` exactly when the comparator is non-positive. -/
def standingsLE (x y : TeamRow) : Prop := standingsCmp x y ≤ 0

instance standingsLE.decidable : ∀ x y, Decidable (standingsLE x y) :=
  fun _ _ => inferInstanceAs (Decidable (_ ≤ _))

/-- The lexicographic part of the claim's comparator description: descending
wins, then ascending losses, then descending points-for, then ascending
points-against, then ascending team name (under the `localeCompare` model). -/
def rowLex (x y : TeamRow) : Prop :=
  y.stats.wins < x.stats.wins ∨ (x.stats.wins = y.stats.wins ∧
    (x.stats.losses < y.stats.losses ∨ (x.stats.losses = y.stats.losses ∧
      (y.stats.pointsFor < x.stats.pointsFor ∨ (x.stats.pointsFor = y.stats.pointsFor ∧
        (x.stats.pointsAgainst < y.stats.pointsAgainst ∨
          (x.stats.pointsAgainst = y.stats.pointsAgainst ∧ strLe x.team y.team)))))))

/-- The claim's comparator, stated as in the claim: every team with zero games
played sorts strictly after every team with at least one game, and remaining
pairs are ordered by `rowLex`. -/
def claimLE (x y : TeamRow) : Prop :=
  (1 ≤ x.stats.gamesPlayed ∧ y.stats.gamesPlayed = 0) ∨
  (((x.stats.gamesPlayed = 0 ∧ y.stats.gamesPlayed = 0) ∨
    (1 ≤ x.stats.gamesPlayed ∧ 1 ≤ y.stats.gamesPlayed)) ∧ rowLex x y)

/-- The zero-games classes as the code draws them (`gamesPlayed === 0` against
everything else), with `rowLex` inside each class; this is the exact
non-strict order realized by the comparator for all inputs, including
(unrealizable for real standings) negative games-played values. -/
def zeroClassLE (x y : TeamRow) : Prop :=
  (x.stats.gamesPlayed ≠ 0 ∧ y.stats.gamesPlayed = 0) ∨
  ((x.stats.gamesPlayed = 0 ↔ y.stats.gamesPlayed = 0) ∧ rowLex x y)

/-- Step 4 of `computed` (standings.tsx lines 1383-1413): group the final rows
by display division (grouping preserves the rows' relative order, so each
group is a filter) and sort each division's rows by the comparator. -/
def computed (matchList : List SavedMatch)
    (scores : List (String × PersistedMatchScore)) (baseRows : List TeamRow)
    (moves : List DivisionMove) (db : DbTeams) :
    List (Division × List TeamRow) :=
  DIVISION_ORDER.map
    (fun d =>
      (d, List.insertionSort standingsLE
        ((finalRows matchList scores baseRows moves db).filter
          (fun r => r.division == d))))

/-- The screen state that the save path of admin-schedule.tsx reads: the
loaded match list, the id under edit (if any), the typed week string, the
pickers, the two selected teams and the attendance map for the typed week. -/
structure ScheduleForm where
  savedMatches : List SavedMatch
  editingId : Option String
  week : String
  division : Division
  time : String
  court : Int
  teamA : String
  teamB : String
  attendance : List (String × Bool)
deriving Repr

/-- The `weekNum` binding (admin-schedule.tsx line 494). -/
def weekNum (f : ScheduleForm) : Int := safeInt f.week 0

/-- First-match lookup in the attendance record. -/
def lookupAttendance : List (String × Bool) → String → Option Bool
  | [], _ => none
  | e :: rest, k => if e.1 = k then some e.2 else lookupAttendance rest k

/-- Embedding of `isTeamOutForTypedWeek` (admin-schedule.tsx lines 519-522):
a team is out only when the attendance map holds an explicit `false`. -/
def isTeamOutForTypedWeek (f : ScheduleForm) (teamName : String) : Bool :=
  lookupAttendance f.attendance teamName == some false

/-- The `editingId && m.id === editingId` exclusion used by every scan of the
saved matches; an empty editing id is falsy and excludes nothing. -/
def matchExcluded (f : ScheduleForm) (m : SavedMatch) : Bool :=
  match f.editingId with
  | none => false
  | some e => decide (e ≠ "") && (m.id == e)

/-- Embedding of `scheduledTeamsThisSlot` membership, i.e.
`isTeamBookedThisSlot` (admin-schedule.tsx lines 524-542): the team appears in
a non-edited match at the typed week, selected division and selected time. -/
def isTeamBookedThisSlot (f : ScheduleForm) (teamName : String) : Bool :=
  if weekNum f ≤ 0 then false
  else
    f.savedMatches.any (fun m =>
      !(matchExcluded f m) && m.week == weekNum f && m.division == f.division
        && m.time == f.time && (m.teamA == teamName || m.teamB == teamName))

/-- Embedding of `readyToSave` (admin-schedule.tsx lines 544-545). -/
def readyToSave (f : ScheduleForm) : Bool :=
  decide (0 < weekNum f) && !(f.time == "") && !(f.court == 0)
    && !(f.teamA == "") && !(f.teamB == "") && !(f.teamA == f.teamB)

/-- The predicate of the `savedMatches.find` call in `findConflictMessage`
(admin-schedule.tsx lines 640-655): same week and time, and either the same
court (any division) or, within the same division, a shared team. -/
def conflictPred (f : ScheduleForm) (m : SavedMatch) : Bool :=
  !(matchExcluded f m) && m.week == weekNum f && m.time == f.time
    && (m.court == f.court
      || (m.division == f.division
        && (m.teamA == f.teamA || m.teamB == f.teamA
          || m.teamA == f.teamB || m.teamB == f.teamB)))

/-- The court-conflict message (admin-schedule.tsx line 660); its division is
the conflicting match's division. -/
def courtConflictMsg (f : ScheduleForm) (d : Division) : String :=
  "Court " ++ toString f.court ++ " is already booked at " ++ f.time
    ++ " (Week " ++ toString (weekNum f) ++ ", " ++ divisionLabel d ++ ")."

/-- The team-conflict message (admin-schedule.tsx line 663). -/
def teamConflictMsg (f : ScheduleForm) : String :=
  "One of these teams is already scheduled at " ++ f.time ++ " (Week "
    ++ toString (weekNum f) ++ ", " ++ divisionLabel f.division ++ ")."

/-- Embedding of `findConflictMessage` (admin-schedule.tsx lines 637-664). -/
def findConflictMessage (f : ScheduleForm) : Option String :=
  if f.teamA = "" ∨ f.teamB = "" then none
  else
    match f.savedMatches.find? (conflictPred f) with
    | none => none
    | some conflict =>
      if conflict.court = f.court ∧ conflict.time = f.time
          ∧ conflict.week = weekNum f then
        some (courtConflictMsg f conflict.division)
      else some (teamConflictMsg f)

/-- The invalid-form message (admin-schedule.tsx line 775). -/
def fillFormMsg : String := "Please fill everything out and pick two different teams."

/-- The attendance hard-block message (admin-schedule.tsx line 781). -/
def attendanceMsg (f : ScheduleForm) : String :=
  "One or more selected teams are marked OUT for Week " ++ toString (weekNum f)
    ++ ". Please choose teams that are PRESENT."

/-- The already-booked hard-block message (admin-schedule.tsx line 789). -/
def bookedMsg (f : ScheduleForm) : String :=
  "One or more selected teams are already scheduled at " ++ f.time ++ " (Week "
    ++ toString (weekNum f) ++ ", " ++ divisionLabel f.division ++ ")."

/-- Outcome of the `saveOrUpdate` guard chain: an inline form error, a titled
popup rejection, or falling through to the confirmation step that performs the
write. -/
inductive SaveDecision where
  | rejectForm (msg : String)
  | rejectPopup (title msg : String)
  | proceedToConfirm
deriving DecidableEq, Repr

/-- Embedding of the decision structure of `saveOrUpdate` (admin-schedule.tsx
lines 770-805): form validity, then the attendance hard block, then the
already-booked hard block, then the court/team conflict check; only when all
pass does the flow reach the confirmation that writes the match. -/
def saveOrUpdateDecision (f : ScheduleForm) : SaveDecision :=
  if ¬ readyToSave f = true ∨ f.teamA = "" ∨ f.teamB = "" then
    .rejectForm fillFormMsg
  else if isTeamOutForTypedWeek f f.teamA || isTeamOutForTypedWeek f f.teamB then
    .rejectPopup "Attendance" (attendanceMsg f)
  else if isTeamBookedThisSlot f f.teamA || isTeamBookedThisSlot f f.teamB then
    .rejectPopup "Already Scheduled" (bookedMsg f)
  else
    match findConflictMessage f with
    | some msg => .rejectPopup "Conflict" msg
    | none => .proceedToConfirm

/-- Whether a match has a verified persisted score (`s && s.verified`). -/
def isVerifiedIn (scores : List (String × PersistedMatchScore)) (m : SavedMatch) : Bool :=
  match lookupScore scores m.id with
  | none => false
  | some s => s.verified

/-- The matching predicate of the move-resolution loop: trimmed, case
sensitive equality of team names. -/
def moveMatches (team : String) (mv : DivisionMove) : Prop :=
  normalizeName mv.team = normalizeName team

instance moveMatches.decidable (team : String) : DecidablePred (moveMatches team) :=
  fun _ => inferInstanceAs (Decidable (_ = _))

/-- Two match records agreeing on every field except possibly the recorded
division. -/
def sameExceptDivision (m m2 : SavedMatch) : Prop :=
  m.id = m2.id ∧ m.week = m2.week ∧ m.time = m2.time ∧ m.court = m2.court ∧
    m.teamA = m2.teamA ∧ m.teamB = m2.teamB

/-- The three team sources named by the spec's known-teams invariant: the
hardcoded baseline roster, the backend roster table, and every team name
appearing in any match (without the baseline standings rows' team names that
the code also unions in). -/
def baselineOnlySources (matchList : List SavedMatch) (db : DbTeams) :
    List String :=
  baselineAllTeams ++ supaAllNames db
    ++ matchList.flatMap (fun m => [m.teamA, m.teamB])

/-- Test fixture for the conflict checker: the candidate (week 1, Beginner,
6:00 PM, court 1, teams A and B) clashes on the court with a saved
same-division match that also shares team A, so the earlier "already
scheduled" hard block fires first. -/
def courtConflictForm : ScheduleForm :=
  ⟨[⟨"1", 1, .Beginner, "6:00 PM", 1, "A", "C"⟩], none, "1", .Beginner,
    "6:00 PM", 1, "A", "B", []⟩

/-- Test fixture for the conflict checker: the candidate (week 1, Beginner,
6:00 PM, court 1, teams A and B) clashes only on the court with a saved
match of a different division and disjoint teams. -/
def courtConflictFormB : ScheduleForm :=
  ⟨[⟨"1", 1, .Advanced, "6:00 PM", 1, "P", "Q"⟩], none, "1", .Beginner,
    "6:00 PM", 1, "A", "B", []⟩

theorem dropWhile_head_false {p : Char → Bool} :
    ∀ {l c t}, List.dropWhile p l = c :: t → p c = false := by
  intro l
  induction l with
  | nil => intro c t h; simp at h
  | cons a as ih =>
    intro c t h
    rw [List.dropWhile_cons] at h
    by_cases hpa : p a
    · simp [hpa] at h
      exact ih h
    · simp [hpa] at h
      rw [h.1] at hpa
      simpa using hpa

theorem dropWhile_self_of_dropWhile {p : Char → Bool} (l : List Char) :
    List.dropWhile p (List.dropWhile p l) = List.dropWhile p l := by
  cases h : List.dropWhile p l with
  | nil => simp
  | cons c t =>
    have hc := dropWhile_head_false h
    simp [List.dropWhile_cons, hc]

theorem dropWhile_append_singleton {p : Char → Bool} {c : Char} (hc : p c = false) :
    ∀ u : List Char, List.dropWhile p (u ++ [c]) = List.dropWhile p u ++ [c] := by
  intro u
  induction u with
  | nil => simp [List.dropWhile_cons, hc]
  | cons a u ih =>
    by_cases hpa : p a
    · simp [List.dropWhile_cons, hpa, ih]
    · simp [List.dropWhile_cons, hpa]

theorem trimList_idem (l : List Char) : trimList (trimList l) = trimList l := by
  cases h : List.dropWhile isJsSpace l with
  | nil => simp [trimList, h]
  | cons c t =>
    have hc : isJsSpace c = false := dropWhile_head_false h
    set m := List.dropWhile isJsSpace t.reverse with hm
    have hinner : trimList l = c :: m.reverse := by
      rw [trimList, h]
      have h1 : (c :: t).reverse = t.reverse ++ [c] := by simp
      rw [h1, dropWhile_append_singleton hc]
      simp
    have hmm : List.dropWhile isJsSpace m = m := by
      rw [hm]; exact dropWhile_self_of_dropWhile _
    rw [hinner, trimList]
    have h2 : List.dropWhile isJsSpace (c :: m.reverse) = c :: m.reverse := by
      simp [List.dropWhile_cons, hc]
    rw [h2]
    have h3 : (c :: m.reverse).reverse = m ++ [c] := by simp
    rw [h3, dropWhile_append_singleton hc, hmm]
    simp

theorem normalizeName_idem (s : String) :
    normalizeName (normalizeName s) = normalizeName s := by
  unfold normalizeName
  exact congrArg String.mk (trimList_idem s.data)

theorem lexCmp_swap : ∀ a b : List Char, lexCmp b a = (lexCmp a b).swap := by
  intro a
  induction a with
  | nil => intro b; cases b <;> rfl
  | cons x xs ih =>
    intro b
    cases b with
    | nil => rfl
    | cons y ys =>
      simp only [lexCmp]
      rcases Nat.lt_trichotomy x.toNat y.toNat with h | h | h
      · simp [h, Nat.lt_asymm h, Ordering.swap]
      · simp [h, Nat.lt_irrefl, ih ys]
      · simp [h, Nat.lt_asymm h, Ordering.swap]

theorem lexCmp_le_trans :
    ∀ {a b c : List Char}, lexCmp a b ≠ .gt → lexCmp b c ≠ .gt → lexCmp a c ≠ .gt := by
  intro a
  induction a with
  | nil =>
    intro b c _ _
    cases c <;> simp [lexCmp]
  | cons x xs ih =>
    intro b c hab hbc
    cases b with
    | nil => simp [lexCmp] at hab
    | cons y ys =>
      cases c with
      | nil => simp [lexCmp] at hbc
      | cons z zs =>
        simp only [lexCmp] at hab hbc ⊢
        rcases Nat.lt_trichotomy x.toNat y.toNat with hxy | hxy | hxy
        · -- x < y, hence y is not below x; from hbc, y is at most z
          rcases Nat.lt_trichotomy y.toNat z.toNat with hyz | hyz | hyz
          · have hxz : x.toNat < z.toNat := Nat.lt_trans hxy hyz
            simp [hxz]
          · have hxz : x.toNat < z.toNat := by omega
            simp [hxz]
          · have h1 : ¬ y.toNat < z.toNat := by omega
            simp [h1, hyz] at hbc
        · rcases Nat.lt_trichotomy y.toNat z.toNat with hyz | hyz | hyz
          · have hxz : x.toNat < z.toNat := by omega
            simp [hxz]
          · have h1 : ¬ x.toNat < y.toNat := by omega
            have h2 : ¬ y.toNat < x.toNat := by omega
            have h3 : ¬ y.toNat < z.toNat := by omega
            have h4 : ¬ z.toNat < y.toNat := by omega
            have h5 : ¬ x.toNat < z.toNat := by omega
            have h6 : ¬ z.toNat < x.toNat := by omega
            simp only [h1, h2, if_false] at hab
            simp only [h3, h4, if_false] at hbc
            simp only [h5, h6, if_false]
            exact ih hab hbc
          · have h1 : ¬ y.toNat < z.toNat := by omega
            simp [h1, hyz] at hbc
        · have h1 : ¬ x.toNat < y.toNat := by omega
          simp [h1, hxy] at hab

theorem strLe_trans {x y z : String} (h1 : strLe x y) (h2 : strLe y z) : strLe x z :=
  lexCmp_le_trans h1 h2

theorem strLe_total (x y : String) : strLe x y ∨ strLe y x := by
  unfold strLe strCmp
  rw [lexCmp_swap x.data y.data]
  cases lexCmp x.data y.data <;> simp [Ordering.swap]

theorem localeCompareInt_nonpos_iff {x y : String} :
    localeCompareInt x y ≤ 0 ↔ strLe x y := by
  unfold localeCompareInt strLe
  cases strCmp x y <;> simp

theorem localeCompareInt_swap (x y : String) :
    localeCompareInt y x = -localeCompareInt x y := by
  unfold localeCompareInt strCmp
  rw [lexCmp_swap x.data y.data]
  cases lexCmp x.data y.data <;> simp [Ordering.swap]

theorem isEnteredScore_iff (v : String) :
    isEnteredScore v = true ↔ normalizeName v ≠ "" := by
  unfold isEnteredScore
  cases h : (normalizeName v == "") with
  | false =>
    have hv : normalizeName v ≠ "" := by
      intro hv
      rw [hv] at h
      simp at h
    simp [hv]
  | true =>
    have hv : normalizeName v = "" := eq_of_beq h
    simp [hv]

/-- C7: the shared entered-score predicate (`isEnteredScore`, duplicated
verbatim in standings.tsx and the scoring screen) holds exactly when the score
string trims to something non-empty; `"0"` is entered, `""` is not, and an
entered pair containing a `"0"` still counts the game as played, tallying the
zero into the points. -/
theorem claim_C7_entered_score :
    (∀ v : String, isEnteredScore v = true ↔ normalizeName v ≠ "") ∧
    isEnteredScore "0" = true ∧
    isEnteredScore "" = false ∧
    gameEnteredPair "0" "11" = true ∧
    slotTally "0" "11" = ⟨1, 0, 1, 0, 11⟩ ∧
    gameEnteredPair "" "11" = false := by
  refine ⟨isEnteredScore_iff, ?_, ?_, ?_, ?_, ?_⟩ <;> decide

/-- C1: a game slot where exactly one side entered a score contributes nothing
at all — no game played, no win, no loss, and no points for either team — to
the per-match totals `matchContribA`/`matchContribB` that the standings fold
adds to both teams. -/
theorem claim_C1_unilateral_slot (a b : String)
    (h : isEnteredScore a ≠ isEnteredScore b) :
    slotTally a b = ⟨0, 0, 0, 0, 0⟩ := by
  have hpair : gameEnteredPair a b = false := by
    unfold gameEnteredPair
    cases ha : isEnteredScore a <;> cases hb : isEnteredScore b <;>
      simp_all
  unfold slotTally
  rw [hpair]
  simp

theorem claim_C1_witness :
    isEnteredScore "7" ≠ isEnteredScore "" ∧ slotTally "7" "" = ⟨0, 0, 0, 0, 0⟩ :=
  ⟨by decide, claim_C1_unilateral_slot "7" "" (by decide)⟩

/-- C2: the two per-team contributions of a verified match are mirror images
(equal games played; A's wins are B's losses and vice versa; A's points-for
are B's points-against and vice versa), and per game slot the two points-for
contributions sum to the two raw scores when the slot is entered and to zero
otherwise. -/
theorem claim_C2_symmetry :
    (∀ s : PersistedMatchScore,
      (matchContribA s).gamesPlayed = (matchContribB s).gamesPlayed ∧
      (matchContribA s).wins = (matchContribB s).losses ∧
      (matchContribA s).losses = (matchContribB s).wins ∧
      (matchContribA s).pointsFor = (matchContribB s).pointsAgainst ∧
      (matchContribA s).pointsAgainst = (matchContribB s).pointsFor) ∧
    (∀ a b : String,
      (slotTally a b).aPoints + (slotTally a b).bPoints =
        if gameEnteredPair a b = true then toN a + toN b else 0) := by
  constructor
  · intro s
    exact ⟨rfl, rfl, rfl, rfl, rfl⟩
  · intro a b
    unfold slotTally
    by_cases he : gameEnteredPair a b = true
    · simp only [he, if_true]
      split_ifs <;> simp
    · simp only [Bool.not_eq_true] at he
      simp [he]

/-- C8: in a fully entered game slot with equal numeric scores the slot counts
one played game and awards no win or loss to either side; a win component is 1
exactly when the slot is entered and that side's numeric score is strictly
higher. -/
theorem claim_C8_ties (a b : String) :
    (gameEnteredPair a b = true → toN a = toN b →
      slotTally a b = ⟨1, 0, 0, toN a, toN b⟩) ∧
    ((slotTally a b).aWins = 1 ↔ gameEnteredPair a b = true ∧ toN b < toN a) ∧
    ((slotTally a b).bWins = 1 ↔ gameEnteredPair a b = true ∧ toN a < toN b) := by
  refine ⟨?_, ?_, ?_⟩
  · intro he heq
    unfold slotTally
    rw [he]
    simp [heq]
  · unfold slotTally
    by_cases he : gameEnteredPair a b = true
    · simp only [he, if_true, true_and]
      split_ifs with h1 h2 <;> simp_all <;> omega
    · simp only [Bool.not_eq_true] at he
      simp [he]
  · unfold slotTally
    by_cases he : gameEnteredPair a b = true
    · simp only [he, if_true, true_and]
      split_ifs with h1 h2 <;> simp_all <;> omega
    · simp only [Bool.not_eq_true] at he
      simp [he]

theorem claim_C8_witness :
    slotTally "7" "7" = ⟨1, 0, 0, toN "7", toN "7"⟩ :=
  (claim_C8_ties "7" "7").1 (by decide) (by decide)

theorem getMaxVerifiedWeek_fold (scores : List (String × PersistedMatchScore)) :
    ∀ (l : List SavedMatch) (acc : Int),
      l.foldl
        (fun mx m =>
          match lookupScore scores m.id with
          | none => mx
          | some s => if s.verified then (if mx < m.week then m.week else mx) else mx)
        acc
      = List.foldl max acc ((l.filter (fun m => isVerifiedIn scores m)).map (fun m => m.week)) := by
  intro l
  induction l with
  | nil => intro acc; rfl
  | cons m rest ih =>
    intro acc
    simp only [List.foldl_cons]
    cases hs : lookupScore scores m.id with
    | none =>
      have hv : isVerifiedIn scores m = false := by simp [isVerifiedIn, hs]
      simp only [hs, List.filter_cons, hv, Bool.false_eq_true, ite_false]
      exact ih acc
    | some s =>
      cases hsv : s.verified with
      | false =>
        have hv : isVerifiedIn scores m = false := by simp [isVerifiedIn, hs, hsv]
        simp only [hs, hsv, Bool.false_eq_true, ite_false, List.filter_cons, hv]
        exact ih acc
      | true =>
        have hv : isVerifiedIn scores m = true := by simp [isVerifiedIn, hs, hsv]
        have hmax : (if acc < m.week then m.week else acc) = max acc m.week := by
          rcases lt_or_le acc m.week with h | h
          · simp [h, max_eq_right (le_of_lt h)]
          · simp [not_lt.mpr h, max_eq_left h]
        simp only [hs, hsv, ite_true, List.filter_cons, hv, List.map_cons,
          List.foldl_cons, hmax]
        exact ih (max acc m.week)

theorem bestMoveStep_not_match {team : String} {w : Int} {best : Option DivisionMove}
    {mv : DivisionMove} (h : normalizeName mv.team ≠ normalizeName team) :
    bestMoveStep team w best mv = best := by
  unfold bestMoveStep
  rw [if_pos h]

theorem bestMoveStep_late {team : String} {w : Int} {best : Option DivisionMove}
    {mv : DivisionMove} (h : normalizeName mv.team = normalizeName team)
    (hw : w < mv.effectiveWeek) :
    bestMoveStep team w best mv = best := by
  unfold bestMoveStep
  rw [if_neg (not_not_intro h), if_pos hw]

theorem bestMoveStep_none {team : String} {w : Int} {mv : DivisionMove}
    (h : normalizeName mv.team = normalizeName team) (hw : ¬ w < mv.effectiveWeek) :
    bestMoveStep team w none mv = some mv := by
  unfold bestMoveStep
  rw [if_neg (not_not_intro h), if_neg hw]

theorem bestMoveStep_some {team : String} {w : Int} {b mv : DivisionMove}
    (h : normalizeName mv.team = normalizeName team) (hw : ¬ w < mv.effectiveWeek) :
    bestMoveStep team w (some b) mv
      = if b.effectiveWeek < mv.effectiveWeek then some mv else some b := by
  unfold bestMoveStep
  rw [if_neg (not_not_intro h), if_neg hw]

theorem bestMoveFor_fold (team : String) (w : Int) :
    ∀ (moves : List DivisionMove) (b0 : Option DivisionMove),
      (moves.foldl (bestMoveStep team w) b0 = none →
        b0 = none ∧ ∀ mv ∈ moves, moveMatches team mv → w < mv.effectiveWeek) ∧
      (∀ b, moves.foldl (bestMoveStep team w) b0 = some b →
        (b0 = some b ∨ (b ∈ moves ∧ moveMatches team b ∧ b.effectiveWeek ≤ w)) ∧
        (∀ mv ∈ moves, moveMatches team mv → mv.effectiveWeek ≤ w →
          mv.effectiveWeek ≤ b.effectiveWeek) ∧
        (∀ b0v, b0 = some b0v → b0v.effectiveWeek ≤ b.effectiveWeek)) := by
  intro moves
  induction moves with
  | nil =>
    intro b0
    refine ⟨fun h => ⟨h, by simp⟩, fun b hb => ⟨Or.inl hb, by simp, ?_⟩⟩
    intro b0v hv
    rw [hv] at hb
    cases hb
    exact le_refl _
  | cons mv0 rest ih =>
    intro b0
    simp only [List.foldl_cons]
    by_cases hm : normalizeName mv0.team = normalizeName team
    case neg =>
      rw [bestMoveStep_not_match hm]
      refine ⟨fun h => ?_, fun b hb => ?_⟩
      · obtain ⟨h0, hall⟩ := (ih b0).1 h
        refine ⟨h0, ?_⟩
        intro mv hmv hmatch
        rcases List.mem_cons.mp hmv with rfl | hmv2
        · exact absurd hmatch hm
        · exact hall mv hmv2 hmatch
      · obtain ⟨horig, hmax, hb0⟩ := (ih b0).2 b hb
        refine ⟨?_, ?_, hb0⟩
        · rcases horig with h | ⟨h1, h2, h3⟩
          · exact Or.inl h
          · exact Or.inr ⟨List.mem_cons_of_mem _ h1, h2, h3⟩
        · intro mv hmv hmatch hwle
          rcases List.mem_cons.mp hmv with rfl | hmv2
          · exact absurd hmatch hm
          · exact hmax mv hmv2 hmatch hwle
    case pos =>
      by_cases hw : w < mv0.effectiveWeek
      · rw [bestMoveStep_late hm hw]
        refine ⟨fun h => ?_, fun b hb => ?_⟩
        · obtain ⟨h0, hall⟩ := (ih b0).1 h
          refine ⟨h0, ?_⟩
          intro mv hmv hmatch
          rcases List.mem_cons.mp hmv with rfl | hmv2
          · exact hw
          · exact hall mv hmv2 hmatch
        · obtain ⟨horig, hmax, hb0⟩ := (ih b0).2 b hb
          refine ⟨?_, ?_, hb0⟩
          · rcases horig with h | ⟨h1, h2, h3⟩
            · exact Or.inl h
            · exact Or.inr ⟨List.mem_cons_of_mem _ h1, h2, h3⟩
          · intro mv hmv hmatch hle
            rcases List.mem_cons.mp hmv with rfl | hmv2
            · omega
            · exact hmax mv hmv2 hmatch hle
      · cases b0 with
        | none =>
          rw [bestMoveStep_none hm hw]
          refine ⟨fun h => ?_, fun b hb => ?_⟩
          · obtain ⟨h0, _⟩ := (ih (some mv0)).1 h
            cases h0
          · obtain ⟨horig, hmax, hb0⟩ := (ih (some mv0)).2 b hb
            refine ⟨?_, ?_, ?_⟩
            · rcases horig with h | ⟨h1, h2, h3⟩
              · cases h
                exact Or.inr ⟨List.mem_cons_self _ _, hm, by omega⟩
              · exact Or.inr ⟨List.mem_cons_of_mem _ h1, h2, h3⟩
            · intro mv hmv hmatch hle
              rcases List.mem_cons.mp hmv with rfl | hmv2
              · exact hb0 mv rfl
              · exact hmax mv hmv2 hmatch hle
            · intro b0v hv
              cases hv
        | some b0v =>
          rw [bestMoveStep_some hm hw]
          by_cases hlt : b0v.effectiveWeek < mv0.effectiveWeek
          · rw [if_pos hlt]
            refine ⟨fun h => ?_, fun b hb => ?_⟩
            · obtain ⟨h0, _⟩ := (ih (some mv0)).1 h
              cases h0
            · obtain ⟨horig, hmax, hb0⟩ := (ih (some mv0)).2 b hb
              refine ⟨?_, ?_, ?_⟩
              · rcases horig with h | ⟨h1, h2, h3⟩
                · cases h
                  exact Or.inr ⟨List.mem_cons_self _ _, hm, by omega⟩
                · exact Or.inr ⟨List.mem_cons_of_mem _ h1, h2, h3⟩
              · intro mv hmv hmatch hle
                rcases List.mem_cons.mp hmv with rfl | hmv2
                · exact hb0 mv rfl
                · exact hmax mv hmv2 hmatch hle
              · intro bv hv
                cases hv
                have := hb0 mv0 rfl
                omega
          · rw [if_neg hlt]
            refine ⟨fun h => ?_, fun b hb => ?_⟩
            · obtain ⟨h0, _⟩ := (ih (some b0v)).1 h
              cases h0
            · obtain ⟨horig, hmax, hb0⟩ := (ih (some b0v)).2 b hb
              refine ⟨?_, ?_, ?_⟩
              · rcases horig with h | ⟨h1, h2, h3⟩
                · exact Or.inl h
                · exact Or.inr ⟨List.mem_cons_of_mem _ h1, h2, h3⟩
              · intro mv hmv hmatch hle
                rcases List.mem_cons.mp hmv with rfl | hmv2
                · have := hb0 b0v rfl
                  omega
                · exact hmax mv hmv2 hmatch hle
              · exact hb0

/-- C4 counterexample: the claim requires division-move matching to work
under case normalization, but `getDivisionForTeamAsOfWeek` compares trimmed
names case-sensitively.  A saved move for `"alpha"` effective at week 3 with
`asOfWeek = 5` matches team `"Alpha"` up to case, yet resolves to no override,
so the team would keep its original division instead of the move's
`toDivision`. -/
theorem claim_C4_counterexample :
    caseFold (normalizeName "alpha") = caseFold (normalizeName "Alpha") ∧
    (⟨"mv1", "alpha", Division.Beginner, Division.Advanced, 3⟩ : DivisionMove).effectiveWeek ≤ 5 ∧
    getDivisionForTeamAsOfWeek "Alpha" 5
      [⟨"mv1", "alpha", Division.Beginner, Division.Advanced, 3⟩] = none := by
  refine ⟨by decide, by decide, ?_⟩
  decide

/-- C4 (amended): `asOfWeek` is the maximum of 1 and the weeks of all matches
with a verified score; a team's division override is the `toDivision` of a
saved move matching the team's trimmed name exactly (case-sensitively, not
case-insensitively as the claim stated) with the largest `effectiveWeek` not
exceeding `asOfWeek`, and `none` exactly when no saved move matches in time;
every final standings row takes its display division from this override when
present and from the totals entry's original division otherwise. -/
theorem claim_C4_amended :
    (∀ (matchList : List SavedMatch) (scores : List (String × PersistedMatchScore)),
      getMaxVerifiedWeek matchList scores =
        List.foldl max 1
          ((matchList.filter (fun m => isVerifiedIn scores m)).map (fun m => m.week))) ∧
    (∀ (team : String) (asOfWeek : Int) (moves : List DivisionMove),
      (getDivisionForTeamAsOfWeek team asOfWeek moves = none ↔
        ∀ mv ∈ moves, moveMatches team mv → asOfWeek < mv.effectiveWeek) ∧
      (∀ d, getDivisionForTeamAsOfWeek team asOfWeek moves = some d →
        ∃ mv ∈ moves, moveMatches team mv ∧ mv.effectiveWeek ≤ asOfWeek ∧
          mv.toDivision = d ∧
          ∀ mv2 ∈ moves, moveMatches team mv2 → mv2.effectiveWeek ≤ asOfWeek →
            mv2.effectiveWeek ≤ mv.effectiveWeek)) ∧
    (∀ matchList scores baseRows moves db r,
      r ∈ finalRows matchList scores baseRows moves db →
      ∃ e ∈ totalsAfterMatches matchList scores baseRows db,
        r.team = e.2.team ∧
        r.division =
          (getDivisionForTeamAsOfWeek e.2.team (getMaxVerifiedWeek matchList scores)
            moves).getD e.2.originalDivision) := by
  refine ⟨?_, ?_, ?_⟩
  · intro matchList scores
    exact getMaxVerifiedWeek_fold scores matchList 1
  · intro team asOfWeek moves
    constructor
    · constructor
      · intro h
        have hb : bestMoveFor team asOfWeek moves = none := by
          unfold getDivisionForTeamAsOfWeek at h
          exact Option.map_eq_none'.mp h
        exact ((bestMoveFor_fold team asOfWeek moves none).1 hb).2
      · intro hall
        cases hbm : bestMoveFor team asOfWeek moves with
        | none => simp [getDivisionForTeamAsOfWeek, hbm]
        | some b =>
          obtain ⟨horig, _, _⟩ := (bestMoveFor_fold team asOfWeek moves none).2 b hbm
          rcases horig with h | ⟨h1, h2, h3⟩
          · cases h
          · exact absurd (hall b h1 h2) (by omega)
    · intro d hd
      unfold getDivisionForTeamAsOfWeek at hd
      obtain ⟨b, hb, hbd⟩ := Option.map_eq_some'.mp hd
      obtain ⟨horig, hmax, _⟩ := (bestMoveFor_fold team asOfWeek moves none).2 b hb
      rcases horig with h | ⟨h1, h2, h3⟩
      · cases h
      · exact ⟨b, h1, h2, h3, hbd, hmax⟩
  · intro matchList scores baseRows moves db r hr
    rw [finalRows, List.mem_map] at hr
    obtain ⟨e, he, rfl⟩ := hr
    exact ⟨e, he, rfl, rfl⟩

theorem claim_C4_witness :
    ∃ mv ∈ [(⟨"mv1", "Adam/Jon", Division.Advanced, Division.Beginner, 3⟩ : DivisionMove)],
      moveMatches "Adam/Jon" mv ∧ mv.effectiveWeek ≤ 5 ∧
      mv.toDivision = Division.Beginner ∧
      ∀ mv2 ∈ [(⟨"mv1", "Adam/Jon", Division.Advanced, Division.Beginner, 3⟩ : DivisionMove)],
        moveMatches "Adam/Jon" mv2 → mv2.effectiveWeek ≤ 5 →
        mv2.effectiveWeek ≤ mv.effectiveWeek :=
  (claim_C4_amended.2.1 "Adam/Jon" 5
    [⟨"mv1", "Adam/Jon", Division.Advanced, Division.Beginner, 3⟩]).2
    Division.Beginner (by decide)

theorem foldMatchStep_skip {scores : List (String × PersistedMatchScore)}
    {startW : Int} {tot : List (String × TeamTotals)} {m : SavedMatch}
    (h : m.week < startW) : foldMatchStep scores startW tot m = tot := by
  unfold foldMatchStep
  rw [if_pos h]

theorem foldMatches_eq_filter (scores : List (String × PersistedMatchScore))
    (startW : Int) :
    ∀ (l : List SavedMatch) (acc : List (String × TeamTotals)),
      l.foldl (foldMatchStep scores startW) acc =
        (l.filter (fun m => decide (startW ≤ m.week))).foldl
          (foldMatchStep scores startW) acc := by
  intro l
  induction l with
  | nil => intro acc; rfl
  | cons m rest ih =>
    intro acc
    by_cases hw : startW ≤ m.week
    · have hf : (m :: rest).filter (fun x => decide (startW ≤ x.week))
          = m :: rest.filter (fun x => decide (startW ≤ x.week)) := by
        simp [List.filter_cons, hw]
      rw [List.foldl_cons, hf, List.foldl_cons]
      exact ih _
    · have hlt : m.week < startW := by omega
      have hf : (m :: rest).filter (fun x => decide (startW ≤ x.week))
          = rest.filter (fun x => decide (startW ≤ x.week)) := by
        simp [List.filter_cons, hw]
      rw [List.foldl_cons, hf, foldMatchStep_skip hlt]
      exact ih acc

/-- C5 (amended): the baseline "has stats" test is an existence of a strictly
positive statistic (the claim's "non-zero" is corrected to "positive": a
negative statistic does not trigger it); verified match scores are folded in
from week 2 when it holds and from week 1 otherwise, only matches at or after
that start week contribute, and the baseline rows' totals are added into the
totals map exactly when the test holds. -/
theorem claim_C5_amended :
    (∀ baseRows : List TeamRow,
      baselineHasStats baseRows = true ↔
        ∃ r ∈ baseRows, 0 < r.stats.gamesPlayed ∨ 0 < r.stats.wins ∨
          0 < r.stats.losses ∨ 0 < r.stats.pointsFor ∨ 0 < r.stats.pointsAgainst) ∧
    (∀ baseRows : List TeamRow,
      startWeekForDevice baseRows = if baselineHasStats baseRows then 2 else 1) ∧
    (∀ matchList scores baseRows db,
      totalsAfterMatches matchList scores baseRows db =
        (matchList.filter (fun m => decide (startWeekForDevice baseRows ≤ m.week))).foldl
          (foldMatchStep scores (startWeekForDevice baseRows))
          (totalsAfterBaseline matchList baseRows db)) ∧
    (∀ matchList baseRows db, baselineHasStats baseRows = false →
      totalsAfterBaseline matchList baseRows db = seedTotals matchList baseRows db) ∧
    (∀ matchList baseRows db, baselineHasStats baseRows = true →
      totalsAfterBaseline matchList baseRows db =
        baseRows.foldl (fun tot r => addTotals tot r.team (some r.division) r.stats)
          (seedTotals matchList baseRows db)) := by
  refine ⟨?_, ?_, ?_, ?_, ?_⟩
  · intro baseRows
    rw [baselineHasStats, List.any_eq_true]
    constructor
    · rintro ⟨r, hr, h⟩
      refine ⟨r, hr, ?_⟩
      simp only [Bool.or_eq_true, decide_eq_true_eq] at h
      tauto
    · rintro ⟨r, hr, h⟩
      refine ⟨r, hr, ?_⟩
      simp only [Bool.or_eq_true, decide_eq_true_eq]
      tauto
  · intro baseRows
    rfl
  · intro matchList scores baseRows db
    exact foldMatches_eq_filter scores (startWeekForDevice baseRows) matchList _
  · intro matchList baseRows db h
    simp [totalsAfterBaseline, h]
  · intro matchList baseRows db h
    simp [totalsAfterBaseline, h]

theorem claim_C5_witness :
    totalsAfterBaseline [] [] ⟨[], [], []⟩ = seedTotals [] [] ⟨[], [], []⟩ ∧
    totalsAfterBaseline [] [⟨Division.Beginner, "T", ⟨1, 0, 0, 0, 0⟩⟩] ⟨[], [], []⟩ =
      ([⟨Division.Beginner, "T", ⟨1, 0, 0, 0, 0⟩⟩] : List TeamRow).foldl
        (fun tot r => addTotals tot r.team (some r.division) r.stats)
        (seedTotals [] [⟨Division.Beginner, "T", ⟨1, 0, 0, 0, 0⟩⟩] ⟨[], [], []⟩) :=
  ⟨claim_C5_amended.2.2.2.1 [] [] ⟨[], [], []⟩ (by decide),
   claim_C5_amended.2.2.2.2 [] [⟨Division.Beginner, "T", ⟨1, 0, 0, 0, 0⟩⟩]
     ⟨[], [], []⟩ (by decide)⟩

/-- C5 counterexample: a baseline row whose only non-zero statistic is the
negative `pointsFor = -1` is a non-zero statistic in the claim's sense, yet
`baselineHasStats` is false and verified scores are folded in from week 1, not
week 2, and the baseline totals are not added. -/
theorem claim_C5_counterexample :
    (∃ r ∈ ([⟨Division.Beginner, "T", ⟨0, 0, 0, -1, 0⟩⟩] : List TeamRow),
      r.stats.pointsFor ≠ 0) ∧
    baselineHasStats [⟨Division.Beginner, "T", ⟨0, 0, 0, -1, 0⟩⟩] = false ∧
    startWeekForDevice [⟨Division.Beginner, "T", ⟨0, 0, 0, -1, 0⟩⟩] = 1 := by
  refine ⟨⟨_, List.mem_singleton.mpr rfl, by decide⟩, by decide, by decide⟩

/-- C6 (amended): if some existing match other than the one being edited has
the candidate's week, time and court (any division), the save never reaches
the write path; and when the form is valid and none of the earlier hard blocks
(attendance; a candidate team already booked at that week/division/time)
fires, the rejection is the Conflict popup carrying the court-conflict
message.  (As stated, the claim fails: an earlier hard block can reject the
save with a different message even though a same-court match exists.) -/
theorem claim_C6_amended (f : ScheduleForm) (m : SavedMatch)
    (hm : m ∈ f.savedMatches) (hex : matchExcluded f m = false)
    (hw : m.week = weekNum f) (ht : m.time = f.time) (hc : m.court = f.court) :
    saveOrUpdateDecision f ≠ SaveDecision.proceedToConfirm ∧
    (readyToSave f = true →
      isTeamOutForTypedWeek f f.teamA = false →
      isTeamOutForTypedWeek f f.teamB = false →
      isTeamBookedThisSlot f f.teamA = false →
      isTeamBookedThisSlot f f.teamB = false →
      ∃ d, saveOrUpdateDecision f =
        SaveDecision.rejectPopup "Conflict" (courtConflictMsg f d)) := by
  have hpredm : conflictPred f m = true := by
    simp [conflictPred, hex, hw, ht, hc]
  have hfind : ∃ c, f.savedMatches.find? (conflictPred f) = some c := by
    cases hf : f.savedMatches.find? (conflictPred f) with
    | none =>
      rw [List.find?_eq_none] at hf
      exact absurd hpredm (by simpa using hf m hm)
    | some c => exact ⟨c, rfl⟩
  obtain ⟨c, hcfind⟩ := hfind
  have hcmem : c ∈ f.savedMatches := List.mem_of_find?_eq_some hcfind
  have hcpred : conflictPred f c = true := List.find?_some hcfind
  have hcparts : matchExcluded f c = false ∧ c.week = weekNum f ∧ c.time = f.time ∧
      (c.court = f.court ∨ (c.division = f.division ∧
        (c.teamA = f.teamA ∨ c.teamB = f.teamA ∨ c.teamA = f.teamB ∨ c.teamB = f.teamB))) := by
    have hc2 := hcpred
    simp only [conflictPred, Bool.and_eq_true, Bool.or_eq_true, Bool.not_eq_true',
      beq_iff_eq] at hc2
    tauto
  constructor
  · unfold saveOrUpdateDecision
    by_cases h1 : ¬ readyToSave f = true ∨ f.teamA = "" ∨ f.teamB = ""
    · rw [if_pos h1]
      simp
    · rw [if_neg h1]
      by_cases h2 : (isTeamOutForTypedWeek f f.teamA || isTeamOutForTypedWeek f f.teamB) = true
      · rw [if_pos h2]
        simp
      · rw [if_neg h2]
        by_cases h3 : (isTeamBookedThisSlot f f.teamA || isTeamBookedThisSlot f f.teamB) = true
        · rw [if_pos h3]
          simp
        · rw [if_neg h3]
          have hfc : ∃ msg, findConflictMessage f = some msg := by
            unfold findConflictMessage
            push_neg at h1
            rw [if_neg (by tauto : ¬ (f.teamA = "" ∨ f.teamB = ""))]
            simp only [hcfind]
            by_cases hcc : c.court = f.court ∧ c.time = f.time ∧ c.week = weekNum f
            · rw [if_pos hcc]
              exact ⟨_, rfl⟩
            · rw [if_neg hcc]
              exact ⟨_, rfl⟩
          obtain ⟨msg, hmsg⟩ := hfc
          simp only [hmsg]
          simp
  · intro hready hattA hattB hbookA hbookB
    have hready2 := hready
    rw [readyToSave] at hready2
    simp only [Bool.and_eq_true, decide_eq_true_eq, Bool.not_eq_true',
      beq_eq_false_iff_ne, ne_eq] at hready2
    have hw0 : 0 < weekNum f := by tauto
    have hAne : f.teamA ≠ "" := by tauto
    have hBne : f.teamB ≠ "" := by tauto
    have hcourt : c.court = f.court := by
      by_contra hcc
      obtain ⟨hcex, hcw, hct, hcor⟩ := hcparts
      rcases hcor with hcoeq | ⟨hcdiv, hshare⟩
      · exact hcc hcoeq
      · have hbooked : ∀ tm : String,
            (c.teamA = tm ∨ c.teamB = tm) → isTeamBookedThisSlot f tm = true := by
          intro tm hsh
          unfold isTeamBookedThisSlot
          rw [if_neg (by omega : ¬ weekNum f ≤ 0)]
          rw [List.any_eq_true]
          refine ⟨c, hcmem, ?_⟩
          rcases hsh with hsh | hsh <;>
            simp [hcex, hcw, hct, hcdiv, hsh]
        rcases hshare with hsh | hsh | hsh | hsh
        · rw [hbooked f.teamA (Or.inl hsh)] at hbookA
          cases hbookA
        · rw [hbooked f.teamA (Or.inr hsh)] at hbookA
          cases hbookA
        · rw [hbooked f.teamB (Or.inl hsh)] at hbookB
          cases hbookB
        · rw [hbooked f.teamB (Or.inr hsh)] at hbookB
          cases hbookB
    have hmsg : findConflictMessage f = some (courtConflictMsg f c.division) := by
      unfold findConflictMessage
      rw [if_neg (by tauto : ¬ (f.teamA = "" ∨ f.teamB = ""))]
      simp only [hcfind]
      rw [if_pos ⟨hcourt, hcparts.2.2.1, hcparts.2.1⟩]
    refine ⟨c.division, ?_⟩
    unfold saveOrUpdateDecision
    rw [if_neg ?hform]
    case hform =>
      intro h
      rcases h with h | h | h
      · exact h hready
      · exact hAne h
      · exact hBne h
    rw [if_neg (by simp [hattA, hattB])]
    rw [if_neg (by simp [hbookA, hbookB])]
    simp only [hmsg]

theorem claim_C6_witness :
    saveOrUpdateDecision courtConflictFormB ≠ SaveDecision.proceedToConfirm ∧
    ∃ d, saveOrUpdateDecision courtConflictFormB =
      SaveDecision.rejectPopup "Conflict" (courtConflictMsg courtConflictFormB d) := by
  have h := claim_C6_amended courtConflictFormB
    ⟨"1", 1, .Advanced, "6:00 PM", 1, "P", "Q"⟩
    (List.mem_singleton.mpr rfl) (by decide) (by decide) (by decide) (by decide)
  exact ⟨h.1, h.2 (by decide) (by decide) (by decide) (by decide) (by decide)⟩

/-- C6 counterexample: the fixture's saved match occupies the same week, time
and court as the candidate, so by the claim a court-conflict message should be
produced; instead the earlier "already scheduled" hard block rejects the save
with its own message (team A also appears in the clashing same-division
match), which differs from the court-conflict message for every division. -/
theorem claim_C6_counterexample :
    (∃ m ∈ courtConflictForm.savedMatches,
      matchExcluded courtConflictForm m = false ∧
      m.week = weekNum courtConflictForm ∧
      m.time = courtConflictForm.time ∧
      m.court = courtConflictForm.court) ∧
    saveOrUpdateDecision courtConflictForm =
      SaveDecision.rejectPopup "Already Scheduled" (bookedMsg courtConflictForm) ∧
    bookedMsg courtConflictForm ≠ courtConflictMsg courtConflictForm Division.Beginner ∧
    bookedMsg courtConflictForm ≠ courtConflictMsg courtConflictForm Division.Intermediate ∧
    bookedMsg courtConflictForm ≠ courtConflictMsg courtConflictForm Division.Advanced := by
  refine ⟨⟨_, List.mem_singleton.mpr rfl, by decide, by decide, by decide, by decide⟩,
    by decide, by decide, by decide, by decide⟩

theorem standingsCmpTail_nonpos_iff (x y : TeamRow) :
    standingsCmpTail x y ≤ 0 ↔ rowLex x y := by
  unfold standingsCmpTail rowLex
  by_cases h1 : y.stats.wins ≠ x.stats.wins
  · rw [if_pos h1]
    constructor
    · intro h
      exact Or.inl (by omega)
    · rintro (h | ⟨he, _⟩)
      · omega
      · exact absurd he.symm h1
  · rw [if_neg h1]
    push_neg at h1
    by_cases h2 : x.stats.losses ≠ y.stats.losses
    · rw [if_pos h2]
      constructor
      · intro h
        exact Or.inr ⟨h1.symm, Or.inl (by omega)⟩
      · rintro (h | ⟨he, (h | ⟨he2, _⟩)⟩)
        · omega
        · omega
        · exact absurd he2 h2
    · rw [if_neg h2]
      push_neg at h2
      by_cases h3 : y.stats.pointsFor ≠ x.stats.pointsFor
      · rw [if_pos h3]
        constructor
        · intro h
          exact Or.inr ⟨h1.symm, Or.inr ⟨h2, Or.inl (by omega)⟩⟩
        · rintro (h | ⟨he, (h | ⟨he2, (h | ⟨he3, _⟩)⟩)⟩)
          · omega
          · omega
          · omega
          · exact absurd he3.symm h3
      · rw [if_neg h3]
        push_neg at h3
        by_cases h4 : x.stats.pointsAgainst ≠ y.stats.pointsAgainst
        · rw [if_pos h4]
          constructor
          · intro h
            exact Or.inr ⟨h1.symm, Or.inr ⟨h2, Or.inr ⟨h3.symm, Or.inl (by omega)⟩⟩⟩
          · rintro (h | ⟨he, (h | ⟨he2, (h | ⟨he3, (h | ⟨he4, _⟩)⟩)⟩)⟩)
            · omega
            · omega
            · omega
            · omega
            · exact absurd he4 h4
        · rw [if_neg h4]
          push_neg at h4
          rw [localeCompareInt_nonpos_iff]
          constructor
          · intro h
            exact Or.inr ⟨h1.symm, Or.inr ⟨h2, Or.inr ⟨h3.symm, Or.inr ⟨h4, h⟩⟩⟩⟩
          · rintro (h | ⟨he, (h | ⟨he2, (h | ⟨he3, (h | ⟨he4, hs⟩)⟩)⟩)⟩)
            · omega
            · omega
            · omega
            · omega
            · exact hs

theorem rowLex_trans {x y z : TeamRow} (h1 : rowLex x y) (h2 : rowLex y z) :
    rowLex x z := by
  unfold rowLex at *
  rcases h1 with h1 | ⟨e1, h1⟩
  · rcases h2 with h2 | ⟨e2, h2⟩
    · exact Or.inl (by omega)
    · exact Or.inl (by omega)
  · rcases h2 with h2 | ⟨e2, h2⟩
    · exact Or.inl (by omega)
    · refine Or.inr ⟨by omega, ?_⟩
      rcases h1 with h1 | ⟨f1, h1⟩
      · rcases h2 with h2 | ⟨f2, h2⟩
        · exact Or.inl (by omega)
        · exact Or.inl (by omega)
      · rcases h2 with h2 | ⟨f2, h2⟩
        · exact Or.inl (by omega)
        · refine Or.inr ⟨by omega, ?_⟩
          rcases h1 with h1 | ⟨g1, h1⟩
          · rcases h2 with h2 | ⟨g2, h2⟩
            · exact Or.inl (by omega)
            · exact Or.inl (by omega)
          · rcases h2 with h2 | ⟨g2, h2⟩
            · exact Or.inl (by omega)
            · refine Or.inr ⟨by omega, ?_⟩
              rcases h1 with h1 | ⟨k1, h1⟩
              · rcases h2 with h2 | ⟨k2, h2⟩
                · exact Or.inl (by omega)
                · exact Or.inl (by omega)
              · rcases h2 with h2 | ⟨k2, h2⟩
                · exact Or.inl (by omega)
                · exact Or.inr ⟨by omega, strLe_trans h1 h2⟩

theorem rowLex_total (x y : TeamRow) : rowLex x y ∨ rowLex y x := by
  unfold rowLex
  rcases lt_trichotomy x.stats.wins y.stats.wins with h | h | h
  · exact Or.inr (Or.inl h)
  · rcases lt_trichotomy x.stats.losses y.stats.losses with h2 | h2 | h2
    · exact Or.inl (Or.inr ⟨h, Or.inl h2⟩)
    · rcases lt_trichotomy x.stats.pointsFor y.stats.pointsFor with h3 | h3 | h3
      · exact Or.inr (Or.inr ⟨h.symm, Or.inr ⟨h2.symm, Or.inl h3⟩⟩)
      · rcases lt_trichotomy x.stats.pointsAgainst y.stats.pointsAgainst with h4 | h4 | h4
        · exact Or.inl (Or.inr ⟨h, Or.inr ⟨h2, Or.inr ⟨h3, Or.inl h4⟩⟩⟩)
        · rcases strLe_total x.team y.team with h5 | h5
          · exact Or.inl (Or.inr ⟨h, Or.inr ⟨h2, Or.inr ⟨h3, Or.inr ⟨h4, h5⟩⟩⟩⟩)
          · exact Or.inr (Or.inr ⟨h.symm,
              Or.inr ⟨h2.symm, Or.inr ⟨h3.symm, Or.inr ⟨h4.symm, h5⟩⟩⟩⟩)
        · exact Or.inr (Or.inr ⟨h.symm, Or.inr ⟨h2.symm, Or.inr ⟨h3.symm, Or.inl h4⟩⟩⟩)
      · exact Or.inl (Or.inr ⟨h, Or.inr ⟨h2, Or.inl h3⟩⟩)
    · exact Or.inr (Or.inr ⟨h.symm, Or.inl h2⟩)
  · exact Or.inl (Or.inl h)

theorem standingsLE_iff_zeroClassLE (x y : TeamRow) :
    standingsLE x y ↔ zeroClassLE x y := by
  unfold standingsLE standingsCmp zeroClassLE
  by_cases hx : x.stats.gamesPlayed = 0 <;> by_cases hy : y.stats.gamesPlayed = 0
  · simp [hx, hy, standingsCmpTail_nonpos_iff x y]
  · simp [hx, hy]
  · simp [hx, hy]
  · simp [hx, hy, standingsCmpTail_nonpos_iff x y]

theorem zeroClassLE_trans {x y z : TeamRow} (h1 : zeroClassLE x y)
    (h2 : zeroClassLE y z) : zeroClassLE x z := by
  unfold zeroClassLE at *
  rcases h1 with ⟨hx, hy⟩ | ⟨e1, r1⟩ <;> rcases h2 with ⟨hy2, hz⟩ | ⟨e2, r2⟩
  · exact absurd hy hy2
  · exact Or.inl ⟨hx, e2.mp hy⟩
  · exact Or.inl ⟨fun h0 => hy2 (e1.mp h0), hz⟩
  · exact Or.inr ⟨e1.trans e2, rowLex_trans r1 r2⟩

theorem zeroClassLE_total (x y : TeamRow) : zeroClassLE x y ∨ zeroClassLE y x := by
  unfold zeroClassLE
  by_cases hx : x.stats.gamesPlayed = 0 <;> by_cases hy : y.stats.gamesPlayed = 0
  · rcases rowLex_total x y with h | h
    · exact Or.inl (Or.inr ⟨by tauto, h⟩)
    · exact Or.inr (Or.inr ⟨by tauto, h⟩)
  · exact Or.inr (Or.inl ⟨by tauto, hx⟩)
  · exact Or.inl (Or.inl ⟨by tauto, hy⟩)
  · rcases rowLex_total x y with h | h
    · exact Or.inl (Or.inr ⟨by tauto, h⟩)
    · exact Or.inr (Or.inr ⟨by tauto, h⟩)

theorem claimLE_iff_of_nonneg {x y : TeamRow} (hx : 0 ≤ x.stats.gamesPlayed)
    (hy : 0 ≤ y.stats.gamesPlayed) : claimLE x y ↔ zeroClassLE x y := by
  unfold claimLE zeroClassLE
  constructor
  · rintro (⟨h1, h2⟩ | ⟨hcl, hr⟩)
    · exact Or.inl ⟨by omega, h2⟩
    · refine Or.inr ⟨?_, hr⟩
      rcases hcl with ⟨a, b⟩ | ⟨a, b⟩ <;> constructor <;> intro <;> omega
  · rintro (⟨h1, h2⟩ | ⟨hiff, hr⟩)
    · exact Or.inl ⟨by omega, h2⟩
    · refine Or.inr ⟨?_, hr⟩
      by_cases h0 : x.stats.gamesPlayed = 0
      · exact Or.inl ⟨h0, hiff.mp h0⟩
      · have hyne : y.stats.gamesPlayed ≠ 0 := fun h => h0 (hiff.mpr h)
        exact Or.inr ⟨by omega, by omega⟩

theorem lookupTot_eq_some_mem {m : List (String × TeamTotals)} {k : String}
    {v : TeamTotals} (h : lookupTot m k = some v) : (k, v) ∈ m := by
  induction m with
  | nil => simp [lookupTot] at h
  | cons e rest ih =>
    rw [lookupTot] at h
    by_cases he : e.1 = k
    · rw [if_pos he] at h
      cases h
      have : (k, e.2) = e := by
        rw [← he]
      rw [this]
      exact List.mem_cons_self _ _
    · rw [if_neg he] at h
      exact List.mem_cons_of_mem _ (ih h)

theorem lookupTot_none_iff {m : List (String × TeamTotals)} {k : String} :
    lookupTot m k = none ↔ k ∉ m.map Prod.fst := by
  induction m with
  | nil => simp [lookupTot]
  | cons e rest ih =>
    rw [lookupTot]
    by_cases he : e.1 = k
    · rw [if_pos he]
      simp [he]
    · rw [if_neg he]
      simp only [List.map_cons, List.mem_cons, ih]
      constructor
      · intro h hmem
        rcases hmem with h2 | h2
        · exact he h2.symm
        · exact h h2
      · intro h h2
        exact h (Or.inr h2)

theorem lookupTot_isSome_iff {m : List (String × TeamTotals)} {k : String} :
    (lookupTot m k).isSome = true ↔ k ∈ m.map Prod.fst := by
  cases h : lookupTot m k with
  | none =>
    simp only [Option.isSome_none, Bool.false_eq_true, false_iff]
    exact lookupTot_none_iff.mp h
  | some v =>
    simp only [Option.isSome_some, true_iff]
    have := lookupTot_eq_some_mem h
    exact List.mem_map.mpr ⟨(k, v), this, rfl⟩

theorem addTotals_of_empty {m : List (String × TeamTotals)} {team : String}
    {d : Option Division} {s : Stats} (h : normalizeName team = "") :
    addTotals m team d s = m := by
  unfold addTotals
  rw [if_pos h]

theorem addTotals_of_insert {m : List (String × TeamTotals)} {team : String}
    {d : Option Division} {s : Stats} (h : normalizeName team ≠ "")
    (h2 : lookupTot m (normalizeName team) = none) :
    addTotals m team d s
      = m ++ [(normalizeName team,
          ⟨normalizeName team, d.getD .Beginner, s⟩)] := by
  unfold addTotals
  rw [if_neg h, h2]

theorem addTotals_of_update {m : List (String × TeamTotals)} {team : String}
    {d : Option Division} {s : Stats} {prev : TeamTotals}
    (h : normalizeName team ≠ "")
    (h2 : lookupTot m (normalizeName team) = some prev) :
    addTotals m team d s
      = updateTot m (normalizeName team)
          ⟨normalizeName team, prev.originalDivision, prev.stats.add s⟩ := by
  unfold addTotals
  rw [if_neg h, h2]

theorem keys_updateTot (m : List (String × TeamTotals)) (k : String)
    (v : TeamTotals) : (updateTot m k v).map Prod.fst = m.map Prod.fst := by
  unfold updateTot
  rw [List.map_map]
  apply List.map_congr_left
  intro e _
  by_cases he : e.1 = k
  · simp [he]
  · simp [he]

theorem mem_keys_addTotals {m : List (String × TeamTotals)} {team : String}
    {d : Option Division} {s : Stats} {k : String} :
    k ∈ (addTotals m team d s).map Prod.fst ↔
      k ∈ m.map Prod.fst ∨ (k = normalizeName team ∧ normalizeName team ≠ "") := by
  by_cases h : normalizeName team = ""
  · rw [addTotals_of_empty h]
    simp [h]
  · cases h2 : lookupTot m (normalizeName team) with
    | none =>
      rw [addTotals_of_insert h h2]
      simp only [List.map_append, List.mem_append, List.map_cons, List.map_nil,
        List.mem_singleton]
      constructor
      · rintro (hk | hk)
        · exact Or.inl hk
        · exact Or.inr ⟨hk, h⟩
      · rintro (hk | ⟨hk, _⟩)
        · exact Or.inl hk
        · exact Or.inr hk
    | some prev =>
      rw [addTotals_of_update h h2]
      rw [keys_updateTot]
      constructor
      · exact Or.inl
      · rintro (hk | ⟨hk, _⟩)
        · exact hk
        · rw [hk]
          rw [← lookupTot_isSome_iff, h2]
          rfl

theorem keys_addTotals_of_present {m : List (String × TeamTotals)} {team : String}
    {d : Option Division} {s : Stats}
    (h : normalizeName team = "" ∨ normalizeName team ∈ m.map Prod.fst) :
    (addTotals m team d s).map Prod.fst = m.map Prod.fst := by
  rcases h with h | h
  · rw [addTotals_of_empty h]
  · cases h2 : lookupTot m (normalizeName team) with
    | none => exact absurd h (lookupTot_none_iff.mp h2)
    | some prev =>
      by_cases he : normalizeName team = ""
      · rw [addTotals_of_empty he]
      · rw [addTotals_of_update he h2, keys_updateTot]

theorem nodup_keys_addTotals {m : List (String × TeamTotals)} {team : String}
    {d : Option Division} {s : Stats} (h : (m.map Prod.fst).Nodup) :
    ((addTotals m team d s).map Prod.fst).Nodup := by
  by_cases he : normalizeName team = ""
  · rw [addTotals_of_empty he]
    exact h
  · cases h2 : lookupTot m (normalizeName team) with
    | none =>
      rw [addTotals_of_insert he h2]
      simp only [List.map_append, List.map_cons, List.map_nil]
      rw [List.nodup_append]
      exact ⟨h, List.nodup_singleton _,
        by simpa using fun hmem => (lookupTot_none_iff.mp h2) hmem⟩
    | some prev =>
      rw [addTotals_of_update he h2, keys_updateTot]
      exact h

theorem forall_mem_addTotals {P : String × TeamTotals → Prop}
    {m : List (String × TeamTotals)} {team : String} {d : Option Division}
    {s : Stats} (hm : ∀ e ∈ m, P e)
    (hins : normalizeName team ≠ "" →
      P (normalizeName team, ⟨normalizeName team, d.getD .Beginner, s⟩))
    (hupd : ∀ prev, P (normalizeName team, prev) →
      P (normalizeName team,
        ⟨normalizeName team, prev.originalDivision, prev.stats.add s⟩)) :
    ∀ e ∈ addTotals m team d s, P e := by
  by_cases he : normalizeName team = ""
  · rw [addTotals_of_empty he]
    exact hm
  · cases h2 : lookupTot m (normalizeName team) with
    | none =>
      rw [addTotals_of_insert he h2]
      intro e hmem
      rcases List.mem_append.mp hmem with hmem | hmem
      · exact hm e hmem
      · rw [List.mem_singleton.mp hmem]
        exact hins he
    | some prev =>
      rw [addTotals_of_update he h2]
      intro e hmem
      unfold updateTot at hmem
      rw [List.mem_map] at hmem
      obtain ⟨e0, he0, rfl⟩ := hmem
      by_cases heq : e0.1 = normalizeName team
      · rw [if_pos heq]
        have hprev : (normalizeName team, prev) ∈ m := lookupTot_eq_some_mem h2
        exact hupd prev (hm _ hprev)
      · rw [if_neg heq]
        exact hm e0 he0

theorem mem_uniqSorted {l : List String} {t : String} :
    t ∈ uniqSorted l ↔ (∃ raw ∈ l, normalizeName raw = t) ∧ t ≠ "" := by
  unfold uniqSorted
  rw [List.mem_insertionSort, List.mem_dedup, List.mem_filter]
  simp only [List.mem_map, decide_eq_true_eq]

theorem uniqSorted_norm {l : List String} :
    ∀ t ∈ uniqSorted l, normalizeName t = t ∧ t ≠ "" := by
  intro t ht
  obtain ⟨⟨raw, _, hraw⟩, hne⟩ := mem_uniqSorted.mp ht
  refine ⟨?_, hne⟩
  rw [← hraw]
  exact normalizeName_idem raw

theorem nodup_uniqSorted (l : List String) : (uniqSorted l).Nodup :=
  ((List.perm_insertionSort _ _).nodup_iff).mpr (List.nodup_dedup _)

theorem keys_seedFold (db : DbTeams) :
    ∀ (ts : List String) (m0 : List (String × TeamTotals)),
      (∀ t ∈ ts, normalizeName t = t ∧ t ≠ "") →
      ∀ k, k ∈ (ts.foldl (seedStep db) m0).map Prod.fst ↔
        k ∈ m0.map Prod.fst ∨ k ∈ ts := by
  intro ts
  induction ts with
  | nil =>
    intro m0 _ k
    simp
  | cons t rest ih =>
    intro m0 h k
    have ht := h t (List.mem_cons_self _ _)
    have hstep : seedStep db m0 t
        = addTotals m0 (normalizeName t) (some (hintDivision db (normalizeName t)))
            Stats.zero := by
      unfold seedStep
      rw [if_neg (by rw [ht.1]; exact ht.2)]
    rw [List.foldl_cons, hstep,
      ih _ (fun t2 h2 => h t2 (List.mem_cons_of_mem _ h2)) k]
    rw [mem_keys_addTotals]
    rw [normalizeName_idem t, ht.1]
    constructor
    · rintro ((hk | ⟨hk, _⟩) | hk)
      · exact Or.inl hk
      · exact Or.inr (List.mem_cons.mpr (Or.inl hk))
      · exact Or.inr (List.mem_cons_of_mem _ hk)
    · rintro (hk | hk)
      · exact Or.inl (Or.inl hk)
      · rcases List.mem_cons.mp hk with hk | hk
        · exact Or.inl (Or.inr ⟨hk, ht.2⟩)
        · exact Or.inr hk

theorem keys_seedTotals {matchList : List SavedMatch} {baseRows : List TeamRow}
    {db : DbTeams} {k : String} :
    k ∈ (seedTotals matchList baseRows db).map Prod.fst ↔
      k ∈ allKnownTeams matchList baseRows db := by
  unfold seedTotals
  have h := keys_seedFold db (allKnownTeams matchList baseRows db) []
    (fun t ht => uniqSorted_norm t ht) k
  rw [h]
  simp

theorem norm_mem_allKnownTeams {matchList : List SavedMatch}
    {baseRows : List TeamRow} {db : DbTeams} {raw : String}
    (hraw : raw ∈ knownRaw matchList baseRows db)
    (hne : normalizeName raw ≠ "") :
    normalizeName raw ∈ allKnownTeams matchList baseRows db :=
  mem_uniqSorted.mpr ⟨⟨raw, hraw, rfl⟩, hne⟩

theorem keys_baselineFold (rows : List TeamRow) :
    ∀ m0 : List (String × TeamTotals),
      (∀ r ∈ rows, normalizeName r.team = "" ∨
        normalizeName r.team ∈ m0.map Prod.fst) →
      ((rows.foldl (fun tot r => addTotals tot r.team (some r.division) r.stats)
        m0).map Prod.fst) = m0.map Prod.fst := by
  induction rows with
  | nil =>
    intro m0 _
    rfl
  | cons r rest ih =>
    intro m0 h
    rw [List.foldl_cons]
    have hk : (addTotals m0 r.team (some r.division) r.stats).map Prod.fst
        = m0.map Prod.fst :=
      keys_addTotals_of_present (h r (List.mem_cons_self _ _))
    rw [ih _ (fun r2 hr2 => by rw [hk]; exact h r2 (List.mem_cons_of_mem _ hr2)), hk]

theorem keys_foldMatchStep {scores : List (String × PersistedMatchScore)}
    {sw : Int} {m0 : List (String × TeamTotals)} {m : SavedMatch}
    (hA : normalizeName m.teamA = "" ∨ normalizeName m.teamA ∈ m0.map Prod.fst)
    (hB : normalizeName m.teamB = "" ∨ normalizeName m.teamB ∈ m0.map Prod.fst) :
    (foldMatchStep scores sw m0 m).map Prod.fst = m0.map Prod.fst := by
  unfold foldMatchStep
  by_cases hw : m.week < sw
  · rw [if_pos hw]
  · rw [if_neg hw]
    cases hs : lookupScore scores m.id with
    | none => simp only [hs]
    | some s =>
      simp only [hs]
      by_cases hv : s.verified = true
      · rw [if_pos hv]
        have h1 : (addTotals m0 m.teamA (some m.division) (matchContribA s)).map
            Prod.fst = m0.map Prod.fst := keys_addTotals_of_present hA
        have h2 : normalizeName m.teamB = "" ∨ normalizeName m.teamB ∈
            (addTotals m0 m.teamA (some m.division) (matchContribA s)).map Prod.fst := by
          rw [h1]
          exact hB
        rw [keys_addTotals_of_present h2, h1]
      · rw [if_neg hv]

theorem keys_matchFold (scores : List (String × PersistedMatchScore)) (sw : Int)
    (ml : List SavedMatch) :
    ∀ m0 : List (String × TeamTotals),
      (∀ m ∈ ml,
        (normalizeName m.teamA = "" ∨ normalizeName m.teamA ∈ m0.map Prod.fst) ∧
        (normalizeName m.teamB = "" ∨ normalizeName m.teamB ∈ m0.map Prod.fst)) →
      ((ml.foldl (foldMatchStep scores sw) m0).map Prod.fst) = m0.map Prod.fst := by
  induction ml with
  | nil =>
    intro m0 _
    rfl
  | cons m rest ih =>
    intro m0 h
    rw [List.foldl_cons]
    have hm := h m (List.mem_cons_self _ _)
    have hk : (foldMatchStep scores sw m0 m).map Prod.fst = m0.map Prod.fst :=
      keys_foldMatchStep hm.1 hm.2
    rw [ih _ (fun m2 hm2 => by rw [hk]; exact h m2 (List.mem_cons_of_mem _ hm2)), hk]

theorem keys_totalsAfterBaseline {matchList : List SavedMatch}
    {baseRows : List TeamRow} {db : DbTeams} :
    (totalsAfterBaseline matchList baseRows db).map Prod.fst
      = (seedTotals matchList baseRows db).map Prod.fst := by
  unfold totalsAfterBaseline
  by_cases hb : baselineHasStats baseRows = true
  · rw [if_pos hb]
    apply keys_baselineFold
    intro r hr
    by_cases hne : normalizeName r.team = ""
    · exact Or.inl hne
    · refine Or.inr ?_
      rw [keys_seedTotals]
      apply norm_mem_allKnownTeams _ hne
      unfold knownRaw
      refine List.mem_append.mpr (Or.inr (List.mem_map.mpr ⟨r, hr, rfl⟩))
  · rw [if_neg hb]

theorem keys_totalsAfterMatches {matchList : List SavedMatch}
    {scores : List (String × PersistedMatchScore)} {baseRows : List TeamRow}
    {db : DbTeams} :
    (totalsAfterMatches matchList scores baseRows db).map Prod.fst
      = (seedTotals matchList baseRows db).map Prod.fst := by
  unfold totalsAfterMatches
  rw [keys_matchFold _ _ _ _ ?_, keys_totalsAfterBaseline]
  intro m hm
  constructor
  · by_cases hne : normalizeName m.teamA = ""
    · exact Or.inl hne
    · refine Or.inr ?_
      rw [keys_totalsAfterBaseline, keys_seedTotals]
      apply norm_mem_allKnownTeams _ hne
      unfold knownRaw
      refine List.mem_append.mpr (Or.inl (List.mem_append.mpr (Or.inr ?_)))
      exact List.mem_flatMap.mpr ⟨m, hm, by simp⟩
  · by_cases hne : normalizeName m.teamB = ""
    · exact Or.inl hne
    · refine Or.inr ?_
      rw [keys_totalsAfterBaseline, keys_seedTotals]
      apply norm_mem_allKnownTeams _ hne
      unfold knownRaw
      refine List.mem_append.mpr (Or.inl (List.mem_append.mpr (Or.inr ?_)))
      exact List.mem_flatMap.mpr ⟨m, hm, by simp⟩

theorem pres_foldl {α : Type} (P : List (String × TeamTotals) → Prop)
    (f : List (String × TeamTotals) → α → List (String × TeamTotals)) :
    ∀ (l : List α) (m0 : List (String × TeamTotals)),
      (∀ a ∈ l, ∀ m, P m → P (f m a)) → P m0 → P (l.foldl f m0) := by
  intro l
  induction l with
  | nil =>
    intro m0 _ h0
    exact h0
  | cons a rest ih =>
    intro m0 hstep h0
    rw [List.foldl_cons]
    exact ih _ (fun a2 h2 => hstep a2 (List.mem_cons_of_mem _ h2))
      (hstep a (List.mem_cons_self _ _) m0 h0)

theorem teamKey_addTotals {m : List (String × TeamTotals)} {team : String}
    {d : Option Division} {s : Stats} (hm : ∀ e ∈ m, e.2.team = e.1) :
    ∀ e ∈ addTotals m team d s, e.2.team = e.1 :=
  forall_mem_addTotals hm (fun _ => rfl) (fun _ _ => rfl)

theorem teamKey_foldMatchStep {scores : List (String × PersistedMatchScore)}
    {sw : Int} {m0 : List (String × TeamTotals)} {m : SavedMatch}
    (hm : ∀ e ∈ m0, e.2.team = e.1) :
    ∀ e ∈ foldMatchStep scores sw m0 m, e.2.team = e.1 := by
  unfold foldMatchStep
  by_cases hw : m.week < sw
  · rw [if_pos hw]
    exact hm
  · rw [if_neg hw]
    cases hs : lookupScore scores m.id with
    | none =>
      simp only [hs]
      exact hm
    | some s =>
      simp only [hs]
      by_cases hv : s.verified = true
      · rw [if_pos hv]
        exact teamKey_addTotals (teamKey_addTotals hm)
      · rw [if_neg hv]
        exact hm

theorem teamKey_totalsAfterMatches {matchList : List SavedMatch}
    {scores : List (String × PersistedMatchScore)} {baseRows : List TeamRow}
    {db : DbTeams} :
    ∀ e ∈ totalsAfterMatches matchList scores baseRows db, e.2.team = e.1 := by
  unfold totalsAfterMatches
  apply pres_foldl (fun m => ∀ e ∈ m, e.2.team = e.1)
  · intro a _ m hm
    exact teamKey_foldMatchStep hm
  · unfold totalsAfterBaseline
    have hseed : ∀ e ∈ seedTotals matchList baseRows db, e.2.team = e.1 := by
      unfold seedTotals
      apply pres_foldl (fun m => ∀ e ∈ m, e.2.team = e.1)
      · intro t _ m hm
        unfold seedStep
        by_cases ht : normalizeName t = ""
        · rw [if_pos ht]
          exact hm
        · rw [if_neg ht]
          exact teamKey_addTotals hm
      · intro e he
        simp at he
    by_cases hb : baselineHasStats baseRows = true
    · rw [if_pos hb]
      apply pres_foldl (fun m => ∀ e ∈ m, e.2.team = e.1)
      · intro r _ m hm
        exact teamKey_addTotals hm
      · exact hseed
    · rw [if_neg hb]
      exact hseed

theorem slotTally_gp_nonneg (a b : String) : 0 ≤ (slotTally a b).gamesPlayed := by
  unfold slotTally
  by_cases h : gameEnteredPair a b = true
  · simp only [h, if_true]
    by_cases h1 : toN b < toN a
    · simp [h1]
    · by_cases h2 : toN a < toN b
      · simp [h1, h2]
      · simp [h1, h2]
  · simp [h]

theorem matchTally_gp_nonneg (s : PersistedMatchScore) :
    0 ≤ (matchTally s).gamesPlayed := by
  have h1 := slotTally_gp_nonneg s.teamA.g1 s.teamB.g1
  have h2 := slotTally_gp_nonneg s.teamA.g2 s.teamB.g2
  have h3 := slotTally_gp_nonneg s.teamA.g3 s.teamB.g3
  unfold matchTally SlotTally.add
  dsimp only
  omega

theorem gp_nonneg_addTotals {m : List (String × TeamTotals)} {team : String}
    {d : Option Division} {s : Stats} (hs : 0 ≤ s.gamesPlayed)
    (hm : ∀ e ∈ m, 0 ≤ e.2.stats.gamesPlayed) :
    ∀ e ∈ addTotals m team d s, 0 ≤ e.2.stats.gamesPlayed := by
  apply forall_mem_addTotals hm
  · intro _
    exact hs
  · intro prev hp
    dsimp only at hp
    show 0 ≤ (prev.stats.add s).gamesPlayed
    unfold Stats.add
    dsimp only
    omega

theorem gp_nonneg_totalsAfterMatches {matchList : List SavedMatch}
    {scores : List (String × PersistedMatchScore)} {baseRows : List TeamRow}
    {db : DbTeams} (hbase : ∀ r ∈ baseRows, 0 ≤ r.stats.gamesPlayed) :
    ∀ e ∈ totalsAfterMatches matchList scores baseRows db,
      0 ≤ e.2.stats.gamesPlayed := by
  unfold totalsAfterMatches
  apply pres_foldl (fun m => ∀ e ∈ m, 0 ≤ e.2.stats.gamesPlayed)
  · intro a _ m hm
    unfold foldMatchStep
    by_cases hw : a.week < startWeekForDevice baseRows
    · rw [if_pos hw]
      exact hm
    · rw [if_neg hw]
      cases hs : lookupScore scores a.id with
      | none =>
        simp only [hs]
        exact hm
      | some s =>
        simp only [hs]
        by_cases hv : s.verified = true
        · rw [if_pos hv]
          exact gp_nonneg_addTotals (matchTally_gp_nonneg s)
            (gp_nonneg_addTotals (matchTally_gp_nonneg s) hm)
        · rw [if_neg hv]
          exact hm
  · unfold totalsAfterBaseline
    have hseed : ∀ e ∈ seedTotals matchList baseRows db,
        0 ≤ e.2.stats.gamesPlayed := by
      unfold seedTotals
      apply pres_foldl (fun m => ∀ e ∈ m, 0 ≤ e.2.stats.gamesPlayed)
      · intro t _ m hm
        unfold seedStep
        by_cases ht : normalizeName t = ""
        · rw [if_pos ht]
          exact hm
        · rw [if_neg ht]
          exact gp_nonneg_addTotals (by simp [Stats.zero]) hm
      · intro e he
        simp at he
    by_cases hb : baselineHasStats baseRows = true
    · rw [if_pos hb]
      apply pres_foldl (fun m => ∀ e ∈ m, 0 ≤ e.2.stats.gamesPlayed)
      · intro r hr m hm
        exact gp_nonneg_addTotals (hbase r hr) hm
      · exact hseed
    · rw [if_neg hb]
      exact hseed

theorem nodup_keys_totalsAfterMatches {matchList : List SavedMatch}
    {scores : List (String × PersistedMatchScore)} {baseRows : List TeamRow}
    {db : DbTeams} :
    ((totalsAfterMatches matchList scores baseRows db).map Prod.fst).Nodup := by
  unfold totalsAfterMatches
  apply pres_foldl (fun m => (m.map Prod.fst).Nodup)
  · intro a _ m hm
    unfold foldMatchStep
    by_cases hw : a.week < startWeekForDevice baseRows
    · rw [if_pos hw]
      exact hm
    · rw [if_neg hw]
      cases hs : lookupScore scores a.id with
      | none =>
        simp only [hs]
        exact hm
      | some s =>
        simp only [hs]
        by_cases hv : s.verified = true
        · rw [if_pos hv]
          exact nodup_keys_addTotals (nodup_keys_addTotals hm)
        · rw [if_neg hv]
          exact hm
  · unfold totalsAfterBaseline
    have hseed : ((seedTotals matchList baseRows db).map Prod.fst).Nodup := by
      unfold seedTotals
      apply pres_foldl (fun m => (m.map Prod.fst).Nodup)
      · intro t _ m hm
        unfold seedStep
        by_cases ht : normalizeName t = ""
        · rw [if_pos ht]
          exact hm
        · rw [if_neg ht]
          exact nodup_keys_addTotals hm
      · simp
    by_cases hb : baselineHasStats baseRows = true
    · rw [if_pos hb]
      apply pres_foldl (fun m => (m.map Prod.fst).Nodup)
      · intro r _ m hm
        exact nodup_keys_addTotals hm
      · exact hseed
    · rw [if_neg hb]
      exact hseed

/-- C3: for rows with non-negative games-played counts (all real standings
rows; the embedding makes the counting hypothesis explicit), the row
comparator realizes exactly the claim's order - zero-game teams strictly last,
then wins descending, losses ascending, points-for descending, points-against
ascending, team name ascending - and every division's displayed rows are
sorted by that order whenever the baseline rows carry non-negative
games-played counts. -/
theorem claim_C3_ordering :
    (∀ x y : TeamRow, 0 ≤ x.stats.gamesPlayed → 0 ≤ y.stats.gamesPlayed →
      (standingsLE x y ↔ claimLE x y)) ∧
    (∀ matchList scores baseRows moves db,
      (∀ r ∈ baseRows, 0 ≤ r.stats.gamesPlayed) →
      ∀ p ∈ computed matchList scores baseRows moves db,
        p.2.Sorted claimLE) := by
  constructor
  · intro x y hx hy
    rw [standingsLE_iff_zeroClassLE, claimLE_iff_of_nonneg hx hy]
  · intro matchList scores baseRows moves db hbase p hp
    rw [computed, List.mem_map] at hp
    obtain ⟨d, _, rfl⟩ := hp
    dsimp only
    haveI htr : IsTrans TeamRow standingsLE :=
      ⟨fun a b c h1 h2 => (standingsLE_iff_zeroClassLE a c).mpr
        (zeroClassLE_trans ((standingsLE_iff_zeroClassLE a b).mp h1)
          ((standingsLE_iff_zeroClassLE b c).mp h2))⟩
    haveI hto : IsTotal TeamRow standingsLE :=
      ⟨fun a b => by
        rcases zeroClassLE_total a b with h | h
        · exact Or.inl ((standingsLE_iff_zeroClassLE a b).mpr h)
        · exact Or.inr ((standingsLE_iff_zeroClassLE b a).mpr h)⟩
    have hsorted := List.sorted_insertionSort standingsLE
      ((finalRows matchList scores baseRows moves db).filter
        (fun r => r.division == d))
    have hgp : ∀ r ∈ finalRows matchList scores baseRows moves db,
        0 ≤ r.stats.gamesPlayed := by
      intro r hr
      rw [finalRows, List.mem_map] at hr
      obtain ⟨e, he, rfl⟩ := hr
      exact gp_nonneg_totalsAfterMatches hbase e he
    refine List.Pairwise.imp_of_mem ?_ hsorted
    intro a b ha hb hr
    have ha2 : a ∈ finalRows matchList scores baseRows moves db :=
      (List.mem_filter.mp ((List.mem_insertionSort _).mp ha)).1
    have hb2 : b ∈ finalRows matchList scores baseRows moves db :=
      (List.mem_filter.mp ((List.mem_insertionSort _).mp hb)).1
    exact (claimLE_iff_of_nonneg (hgp a ha2) (hgp b hb2)).mpr
      ((standingsLE_iff_zeroClassLE a b).mp hr)

theorem claim_C3_witness :
    (List.insertionSort standingsLE
      ((finalRows [] [] [] [] ⟨[], [], []⟩).filter
        (fun r => r.division == Division.Advanced))).Sorted claimLE := by
  have h := claim_C3_ordering.2 [] [] [] [] ⟨[], [], []⟩ (by simp)
    (Division.Advanced, List.insertionSort standingsLE
      ((finalRows [] [] [] [] ⟨[], [], []⟩).filter
        (fun r => r.division == Division.Advanced)))
    (by
      rw [computed]
      exact List.mem_map.mpr ⟨Division.Advanced, by simp [DIVISION_ORDER], rfl⟩)
  exact h

theorem finalRows_map_team (matchList : List SavedMatch)
    (scores : List (String × PersistedMatchScore)) (baseRows : List TeamRow)
    (moves : List DivisionMove) (db : DbTeams) :
    (finalRows matchList scores baseRows moves db).map (fun r => r.team)
      = (totalsAfterMatches matchList scores baseRows db).map Prod.fst := by
  rw [finalRows, List.map_map]
  apply List.map_congr_left
  intro e he
  exact teamKey_totalsAfterMatches e he

theorem computed_rows_perm (matchList : List SavedMatch)
    (scores : List (String × PersistedMatchScore)) (baseRows : List TeamRow)
    (moves : List DivisionMove) (db : DbTeams) :
    (((computed matchList scores baseRows moves db).map Prod.snd).flatten).Perm
      (finalRows matchList scores baseRows moves db) := by
  have h1 : ((computed matchList scores baseRows moves db).map Prod.snd).flatten
      = List.insertionSort standingsLE
          ((finalRows matchList scores baseRows moves db).filter
            (fun r => r.division == Division.Advanced))
        ++ (List.insertionSort standingsLE
          ((finalRows matchList scores baseRows moves db).filter
            (fun r => r.division == Division.Intermediate))
        ++ List.insertionSort standingsLE
          ((finalRows matchList scores baseRows moves db).filter
            (fun r => r.division == Division.Beginner))) := by
    simp [computed, DIVISION_ORDER]
  rw [h1]
  refine List.Perm.trans
    (List.Perm.append (List.perm_insertionSort _ _)
      (List.Perm.append (List.perm_insertionSort _ _) (List.perm_insertionSort _ _))) ?_
  have hI : ((finalRows matchList scores baseRows moves db).filter
        (fun r => !(r.division == Division.Advanced))).filter
        (fun r => r.division == Division.Intermediate)
      = (finalRows matchList scores baseRows moves db).filter
          (fun r => r.division == Division.Intermediate) := by
    rw [List.filter_filter]
    apply List.filter_congr
    intro r _
    cases r.division <;> rfl
  have hB : ((finalRows matchList scores baseRows moves db).filter
        (fun r => !(r.division == Division.Advanced))).filter
        (fun r => !(r.division == Division.Intermediate))
      = (finalRows matchList scores baseRows moves db).filter
          (fun r => r.division == Division.Beginner) := by
    rw [List.filter_filter]
    apply List.filter_congr
    intro r _
    cases r.division <;> rfl
  have h2 : ((finalRows matchList scores baseRows moves db).filter
        (fun r => r.division == Division.Intermediate)
      ++ (finalRows matchList scores baseRows moves db).filter
        (fun r => r.division == Division.Beginner)).Perm
      ((finalRows matchList scores baseRows moves db).filter
        (fun r => !(r.division == Division.Advanced))) := by
    rw [← hI, ← hB]
    exact List.filter_append_perm _ _
  refine List.Perm.trans (List.Perm.append_left _ h2) ?_
  exact List.filter_append_perm _ _

/-- C9 (amended): the teams of the displayed standings rows are pairwise
distinct - each appears in exactly one division's table - and a team appears
exactly when it is the non-empty trimmed form of a name from the union of the
hardcoded baseline roster, the backend roster table, the teams of any match,
and additionally (beyond the claim's three sources) the team names of the
Week 1 baseline rows. -/
theorem claim_C9_amended :
    ∀ (matchList : List SavedMatch) (scores : List (String × PersistedMatchScore))
      (baseRows : List TeamRow) (moves : List DivisionMove) (db : DbTeams),
      ((((computed matchList scores baseRows moves db).map Prod.snd).flatten).map
        (fun r => r.team)).Nodup ∧
      ∀ t : String,
        (∃ r ∈ ((computed matchList scores baseRows moves db).map Prod.snd).flatten,
          r.team = t) ↔
        ((∃ raw ∈ knownRaw matchList baseRows db, normalizeName raw = t) ∧ t ≠ "") := by
  intro matchList scores baseRows moves db
  have hperm := computed_rows_perm matchList scores baseRows moves db
  have hmap := hperm.map (fun r => r.team)
  constructor
  · refine (hmap.nodup_iff).mpr ?_
    rw [finalRows_map_team]
    exact nodup_keys_totalsAfterMatches
  · intro t
    constructor
    · rintro ⟨r, hr, rfl⟩
      have hmem : r.team ∈ (((computed matchList scores baseRows moves db).map
          Prod.snd).flatten).map (fun r => r.team) :=
        List.mem_map.mpr ⟨r, hr, rfl⟩
      have h2 := hmap.mem_iff.mp hmem
      rw [finalRows_map_team] at h2
      rw [keys_totalsAfterMatches, keys_seedTotals] at h2
      rw [allKnownTeams] at h2
      exact mem_uniqSorted.mp h2
    · rintro ⟨⟨raw, hraw, hnorm⟩, hne⟩
      have h3 : t ∈ allKnownTeams matchList baseRows db := by
        rw [allKnownTeams]
        exact mem_uniqSorted.mpr ⟨⟨raw, hraw, hnorm⟩, hne⟩
      rw [← keys_seedTotals, ← keys_totalsAfterMatches,
        ← finalRows_map_team matchList scores baseRows moves db] at h3
      have h4 := hmap.mem_iff.mpr h3
      obtain ⟨r, hr, hteam⟩ := List.mem_map.mp h4
      exact ⟨r, hr, hteam⟩

/-- C9 counterexample: with no matches and an empty backend roster, a Week 1
baseline row for the otherwise unknown team "Zeta" makes "Zeta" appear in the
standings output, although it belongs to none of the claim's three sources
(hardcoded roster, backend roster, match teams). -/
theorem claim_C9_counterexample :
    (∃ r ∈ ((computed [] [] [⟨Division.Beginner, "Zeta", ⟨0, 0, 0, 0, 0⟩⟩] []
        ⟨[], [], []⟩).map Prod.snd).flatten, r.team = "Zeta") ∧
    ¬ ∃ raw ∈ baselineOnlySources [] ⟨[], [], []⟩, normalizeName raw = "Zeta" := by
  constructor
  · decide
  · decide

theorem flatMap_teams_congr {l l2 : List SavedMatch}
    (h : List.Forall₂ sameExceptDivision l l2) :
    l.flatMap (fun m => [m.teamA, m.teamB])
      = l2.flatMap (fun m => [m.teamA, m.teamB]) := by
  induction h with
  | nil => rfl
  | cons h1 _ ih =>
    obtain ⟨_, _, _, _, hA, hB⟩ := h1
    simp only [List.flatMap_cons, ih, hA, hB]

theorem getMaxVerifiedWeek_congr (scores : List (String × PersistedMatchScore))
    {l l2 : List SavedMatch} (h : List.Forall₂ sameExceptDivision l l2) :
    ∀ acc : Int,
      l.foldl
        (fun mx m =>
          match lookupScore scores m.id with
          | none => mx
          | some s => if s.verified then (if mx < m.week then m.week else mx) else mx)
        acc
      = l2.foldl
        (fun mx m =>
          match lookupScore scores m.id with
          | none => mx
          | some s => if s.verified then (if mx < m.week then m.week else mx) else mx)
        acc := by
  induction h with
  | nil =>
    intro acc
    rfl
  | cons h1 _ ih =>
    intro acc
    obtain ⟨hid, hw, _, _, _, _⟩ := h1
    rw [List.foldl_cons, List.foldl_cons, hid, hw]
    exact ih _

theorem addTotals_div_irrel {m : List (String × TeamTotals)} {team : String}
    {d1 d2 : Option Division} {s : Stats}
    (h : normalizeName team = "" ∨ normalizeName team ∈ m.map Prod.fst) :
    addTotals m team d1 s = addTotals m team d2 s := by
  by_cases he : normalizeName team = ""
  · rw [addTotals_of_empty he, addTotals_of_empty he]
  · have hmem : normalizeName team ∈ m.map Prod.fst := by tauto
    cases h2 : lookupTot m (normalizeName team) with
    | none => exact absurd hmem (lookupTot_none_iff.mp h2)
    | some prev =>
      rw [addTotals_of_update he h2, addTotals_of_update he h2]

theorem foldMatchStep_div_irrel {scores : List (String × PersistedMatchScore)}
    {sw : Int} {tot : List (String × TeamTotals)} {m m2 : SavedMatch}
    (hsame : sameExceptDivision m m2)
    (hA : normalizeName m.teamA = "" ∨ normalizeName m.teamA ∈ tot.map Prod.fst)
    (hB : normalizeName m.teamB = "" ∨ normalizeName m.teamB ∈ tot.map Prod.fst) :
    foldMatchStep scores sw tot m = foldMatchStep scores sw tot m2 := by
  obtain ⟨hid, hw, _, _, hA2, hB2⟩ := hsame
  unfold foldMatchStep
  rw [← hid, ← hw, ← hA2, ← hB2]
  by_cases hwk : m.week < sw
  · rw [if_pos hwk, if_pos hwk]
  · rw [if_neg hwk, if_neg hwk]
    cases hs : lookupScore scores m.id with
    | none => simp only [hs]
    | some s =>
      simp only [hs]
      by_cases hv : s.verified = true
      · rw [if_pos hv, if_pos hv]
        have h1 : addTotals tot m.teamA (some m.division) (matchContribA s)
            = addTotals tot m.teamA (some m2.division) (matchContribA s) :=
          addTotals_div_irrel hA
        rw [← h1]
        apply addTotals_div_irrel
        rcases hB with hB | hB
        · exact Or.inl hB
        · exact Or.inr (mem_keys_addTotals.mpr (Or.inl hB))
      · rw [if_neg hv, if_neg hv]

theorem matchFold_congr (scores : List (String × PersistedMatchScore)) (sw : Int)
    {l l2 : List SavedMatch} (h : List.Forall₂ sameExceptDivision l l2) :
    ∀ tot : List (String × TeamTotals),
      (∀ m ∈ l,
        (normalizeName m.teamA = "" ∨ normalizeName m.teamA ∈ tot.map Prod.fst) ∧
        (normalizeName m.teamB = "" ∨ normalizeName m.teamB ∈ tot.map Prod.fst)) →
      l.foldl (foldMatchStep scores sw) tot = l2.foldl (foldMatchStep scores sw) tot := by
  induction h with
  | nil =>
    intro tot _
    rfl
  | cons h1 _ ih =>
    intro tot hpres
    rw [List.foldl_cons, List.foldl_cons]
    have hm := hpres _ (List.mem_cons_self _ _)
    rw [← foldMatchStep_div_irrel h1 hm.1 hm.2]
    apply ih
    intro m hm2
    have hp := hpres m (List.mem_cons_of_mem _ hm2)
    rw [keys_foldMatchStep hm.1 hm.2]
    exact hp

/-- C10: the division recorded on a match never influences the division a
team is displayed under: replacing the division fields of the match list
arbitrarily (keeping ids, weeks, times, courts and team names) leaves the
entire computed standings output unchanged, because every match team is
pre-seeded with a roster/baseline division hint and `addTotals` never
overwrites an existing entry's `originalDivision`. -/
theorem claim_C10_division_irrelevant :
    ∀ (matchList matchList2 : List SavedMatch)
      (scores : List (String × PersistedMatchScore)) (baseRows : List TeamRow)
      (moves : List DivisionMove) (db : DbTeams),
      List.Forall₂ sameExceptDivision matchList matchList2 →
      computed matchList scores baseRows moves db
        = computed matchList2 scores baseRows moves db := by
  intro l l2 scores baseRows moves db h
  have hteams := flatMap_teams_congr h
  have hknown : knownRaw l baseRows db = knownRaw l2 baseRows db := by
    unfold knownRaw
    rw [hteams]
  have hall : allKnownTeams l baseRows db = allKnownTeams l2 baseRows db := by
    unfold allKnownTeams
    rw [hknown]
  have hseed : seedTotals l baseRows db = seedTotals l2 baseRows db := by
    unfold seedTotals
    rw [hall]
  have hbase : totalsAfterBaseline l baseRows db
      = totalsAfterBaseline l2 baseRows db := by
    unfold totalsAfterBaseline
    rw [hseed]
  have hmax : getMaxVerifiedWeek l scores = getMaxVerifiedWeek l2 scores := by
    unfold getMaxVerifiedWeek
    exact getMaxVerifiedWeek_congr scores h 1
  have hpres : ∀ m ∈ l,
      (normalizeName m.teamA = "" ∨
        normalizeName m.teamA ∈ (totalsAfterBaseline l baseRows db).map Prod.fst) ∧
      (normalizeName m.teamB = "" ∨
        normalizeName m.teamB ∈ (totalsAfterBaseline l baseRows db).map Prod.fst) := by
    intro m hm
    constructor
    · by_cases hne : normalizeName m.teamA = ""
      · exact Or.inl hne
      · refine Or.inr ?_
        rw [keys_totalsAfterBaseline, keys_seedTotals]
        apply norm_mem_allKnownTeams _ hne
        unfold knownRaw
        refine List.mem_append.mpr (Or.inl (List.mem_append.mpr (Or.inr ?_)))
        exact List.mem_flatMap.mpr ⟨m, hm, by simp⟩
    · by_cases hne : normalizeName m.teamB = ""
      · exact Or.inl hne
      · refine Or.inr ?_
        rw [keys_totalsAfterBaseline, keys_seedTotals]
        apply norm_mem_allKnownTeams _ hne
        unfold knownRaw
        refine List.mem_append.mpr (Or.inl (List.mem_append.mpr (Or.inr ?_)))
        exact List.mem_flatMap.mpr ⟨m, hm, by simp⟩
  have htam : totalsAfterMatches l scores baseRows db
      = totalsAfterMatches l2 scores baseRows db := by
    unfold totalsAfterMatches
    rw [← hbase]
    exact matchFold_congr scores (startWeekForDevice baseRows) h _ hpres
  have hfr : finalRows l scores baseRows moves db
      = finalRows l2 scores baseRows moves db := by
    unfold finalRows
    rw [htam, hmax]
  unfold computed
  rw [hfr]

theorem claim_C10_witness :
    computed [⟨"m1", 1, .Intermediate, "6:00 PM", 1, "A/B", "C/D"⟩]
      [("m1", ⟨"m1", ⟨"11", "9", ""⟩, ⟨"7", "11", ""⟩, true, none, none⟩)]
      [] [] ⟨[], [], []⟩
    = computed [⟨"m1", 1, .Advanced, "6:00 PM", 1, "A/B", "C/D"⟩]
      [("m1", ⟨"m1", ⟨"11", "9", ""⟩, ⟨"7", "11", ""⟩, true, none, none⟩)]
      [] [] ⟨[], [], []⟩ :=
  claim_C10_division_irrelevant _ _ _ _ _ _
    (List.Forall₂.cons ⟨rfl, rfl, rfl, rfl, rfl, rfl⟩ List.Forall₂.nil)
